import Mathlib

/-!
Shallow embedding of the gap-geometry and masonry running-position core of the
viewcenter repository, together with proofs settling the frozen claims.

Sources embedded:
- blink/renderer/core/layout/masonry/masonry_running_positions.cc
- blink/renderer/core/layout/flex/flex_gap_accumulator.cc
- blink/renderer/core/paint/gap_decorations_painter.cc

Conventions: `LayoutUnit` is modelled as `Int` (raw fixed-point value; the
source saturates at int32 bounds, which no claim exercises), `wtf_size_t` as
`Nat`, `Vector<T>` as `List T`, and `std::optional` as `Option`.  C++ integer
division of the non-negative gap sizes agrees with Lean `Int` division.
-/

/-- Maximum of an integer list, as the source's `std::max_element` over a
non-empty range (default 0 on the empty list, which the source never passes). -/
def listMax (l : List Int) : Int := l.foldl max (l.headD 0)

/-- Minimum of an integer list, as the source's `std::min_element` over a
non-empty range. -/
def listMin (l : List Int) : Int := l.foldl min (l.headD 0)

theorem le_foldl_max_init (l : List Int) (a : Int) : a ≤ l.foldl max a := by
  induction l generalizing a with
  | nil => exact le_refl a
  | cons x xs ih => exact le_trans (le_max_left a x) (ih (max a x))

theorem le_foldl_max_mem {l : List Int} {x : Int} (hx : x ∈ l) (a : Int) :
    x ≤ l.foldl max a := by
  induction l generalizing a with
  | nil => cases hx
  | cons y ys ih =>
    rcases List.mem_cons.mp hx with h | h
    · subst h
      exact le_trans (le_max_right a x) (le_foldl_max_init ys (max a x))
    · exact ih h (max a y)

theorem foldl_max_eq_init_or_mem (l : List Int) (a : Int) :
    l.foldl max a = a ∨ l.foldl max a ∈ l := by
  induction l generalizing a with
  | nil => exact Or.inl rfl
  | cons x xs ih =>
    rcases ih (max a x) with h | h
    · rcases max_choice a x with hm | hm
      · exact Or.inl (by rw [List.foldl_cons, h, hm])
      · refine Or.inr ?_
        have hx : List.foldl max a (x :: xs) = x := by rw [List.foldl_cons, h, hm]
        rw [hx]
        exact List.mem_cons_self x xs
    · exact Or.inr (List.mem_cons_of_mem x h)

theorem foldl_min_le_init (l : List Int) (a : Int) : l.foldl min a ≤ a := by
  induction l generalizing a with
  | nil => exact le_refl a
  | cons x xs ih => exact le_trans (ih (min a x)) (min_le_left a x)

theorem foldl_min_le_mem {l : List Int} {x : Int} (hx : x ∈ l) (a : Int) :
    l.foldl min a ≤ x := by
  induction l generalizing a with
  | nil => cases hx
  | cons y ys ih =>
    rcases List.mem_cons.mp hx with h | h
    · subst h
      exact le_trans (foldl_min_le_init ys (min a x)) (min_le_right a x)
    · exact ih h (min a y)

theorem foldl_min_eq_init_or_mem (l : List Int) (a : Int) :
    l.foldl min a = a ∨ l.foldl min a ∈ l := by
  induction l generalizing a with
  | nil => exact Or.inl rfl
  | cons x xs ih =>
    rcases ih (min a x) with h | h
    · rcases min_choice a x with hm | hm
      · exact Or.inl (by rw [List.foldl_cons, h, hm])
      · refine Or.inr ?_
        have hx : List.foldl min a (x :: xs) = x := by rw [List.foldl_cons, h, hm]
        rw [hx]
        exact List.mem_cons_self x xs
    · exact Or.inr (List.mem_cons_of_mem x h)

theorem listMax_mem {l : List Int} (h : l ≠ []) : listMax l ∈ l := by
  rcases foldl_max_eq_init_or_mem l (l.headD 0) with he | he
  · rw [listMax, he]
    cases l with
    | nil => exact absurd rfl h
    | cons x xs => exact List.mem_cons_self x xs
  · exact he

theorem le_listMax {l : List Int} {x : Int} (hx : x ∈ l) : x ≤ listMax l :=
  le_foldl_max_mem hx (l.headD 0)

theorem listMin_mem {l : List Int} (h : l ≠ []) : listMin l ∈ l := by
  rcases foldl_min_eq_init_or_mem l (l.headD 0) with he | he
  · rw [listMin, he]
    cases l with
    | nil => exact absurd rfl h
    | cons x xs => exact List.mem_cons_self x xs
  · exact he

theorem listMin_le {l : List Int} {x : Int} (hx : x ∈ l) : listMin l ≤ x :=
  foldl_min_le_mem hx (l.headD 0)

/-- Half-open track span `[startLine, endLine)`, as the source's `GridSpan`
in its translated-definite form. -/
structure GridSpan where
  startLine : Nat
  endLine : Nat
deriving DecidableEq, Repr

/-- SpanSize of a `GridSpan`, as in the source (`EndLine() - StartLine()`). -/
def GridSpan.SpanSize (s : GridSpan) : Nat := s.endLine - s.startLine

/-- Reusable interval of space on a single track, as the source's
`TrackOpening` struct with fields `start_position` and `end_position`. -/
structure TrackOpening where
  start_position : Int
  end_position : Int
deriving DecidableEq, Repr

/-- Size of a track opening (`end_position - start_position`). -/
def TrackOpening.Size (o : TrackOpening) : Int := o.end_position - o.start_position

/-- State of `MasonryRunningPositions`: per-track running positions, the tie
threshold and auto-placement cursor, the dense-packing flag, per-track opening
lists and cached track sizes. -/
structure MasonryRunningPositions where
  running_positions : List Int
  tie_threshold : Int
  auto_placement_cursor : Nat
  is_dense_packing : Bool
  track_collection_openings : List (List TrackOpening)
  track_collection_sizes : List Int
deriving DecidableEq, Repr

/-- GetMaxPositionForSpan from masonry_running_positions.cc (lines 82-91):
maximum running position over the tracks of `span`. -/
def MasonryRunningPositions.GetMaxPositionForSpan (m : MasonryRunningPositions)
    (span : GridSpan) : Int :=
  listMax ((m.running_positions.drop span.startLine).take span.SpanSize)

/-- GetMaxPositionsForAllTracks from masonry_running_positions.cc (lines
319-338): the per-start-line window maxima for windows of `span_size`. -/
def MasonryRunningPositions.GetMaxPositionsForAllTracks
    (m : MasonryRunningPositions) (span_size : Nat) : List Int :=
  if span_size = 1 then m.running_positions
  else
    let first_non_fit_start_line := m.running_positions.length - span_size + 1
    (List.range first_non_fit_start_line).map fun i =>
      m.GetMaxPositionForSpan ⟨i, i + span_size⟩

/-- Loop body of the source's `FindPositionWithinThreshold` lambda (lines
34-41): scan the remaining suffix carrying the absolute index. -/
def findFromIdx (allowed : Int) : List Int → Nat → Option Nat
  | [], _ => none
  | x :: rest, i => if x ≤ allowed then some i else findFromIdx allowed rest (i + 1)

/-- FindPositionWithinThreshold from masonry_running_positions.cc (lines
34-41): first index at or after `begin_index` whose value is within the
allowed threshold, `none` standing for the source's `kNotFound`. -/
def findPositionWithinThreshold (maxs : List Int) (allowed : Int)
    (begin_index : Nat) : Option Nat :=
  findFromIdx allowed (maxs.drop begin_index) begin_index

/-- GetFirstEligibleLine from masonry_running_positions.cc (lines 13-53).
Returns the chosen span together with the written-back
`max_running_position`; `none` models the branch where both scans return
`kNotFound` (which the source asserts is unreachable). -/
def MasonryRunningPositions.GetFirstEligibleLine (m : MasonryRunningPositions)
    (span_size : Nat) : Option (GridSpan × Int) :=
  let max_running_positions := m.GetMaxPositionsForAllTracks span_size
  let largest_max_running_position_allowed :=
    listMin max_running_positions + m.tie_threshold
  let first_pass := findPositionWithinThreshold max_running_positions
    largest_max_running_position_allowed m.auto_placement_cursor
  let first_eligible_line := match first_pass with
    | some i => some i
    | none => findPositionWithinThreshold max_running_positions
        largest_max_running_position_allowed 0
  match first_eligible_line with
  | none => none
  | some i => some (⟨i, i + span_size⟩, max_running_positions.getD i 0)

theorem findFromIdx_some {allowed : Int} :
    ∀ (l : List Int) (i c : Nat), findFromIdx allowed l i = some c →
      i ≤ c ∧ c - i < l.length ∧ l.getD (c - i) 0 ≤ allowed ∧
      ∀ j, j < c - i → ¬(l.getD j 0 ≤ allowed)
  | [], i, c, h => by simp [findFromIdx] at h
  | x :: rest, i, c, h => by
    by_cases hx : x ≤ allowed
    · rw [findFromIdx, if_pos hx] at h
      obtain rfl : i = c := by injection h
      refine ⟨le_refl i, by simp, by simpa using hx, ?_⟩
      intro j hj
      omega
    · rw [findFromIdx, if_neg hx] at h
      obtain ⟨h1, h2, h3, h4⟩ := findFromIdx_some rest (i + 1) c h
      have hci : c - i = (c - (i + 1)) + 1 := by omega
      refine ⟨by omega, by simp; omega, ?_, ?_⟩
      · rw [hci]
        simpa using h3
      · intro j hj
        cases j with
        | zero => simpa using hx
        | succ k =>
          have : k < c - (i + 1) := by omega
          simpa using h4 k this

theorem findFromIdx_none {allowed : Int} :
    ∀ (l : List Int) (i : Nat), findFromIdx allowed l i = none →
      ∀ j, j < l.length → ¬(l.getD j 0 ≤ allowed)
  | [], _, _ => by intro j hj; simp at hj
  | x :: rest, i, h => by
    by_cases hx : x ≤ allowed
    · rw [findFromIdx, if_pos hx] at h
      exact absurd h (by simp)
    · rw [findFromIdx, if_neg hx] at h
      intro j hj
      cases j with
      | zero => simpa using hx
      | succ k =>
        have hk : k < rest.length := by simpa using hj
        simpa using findFromIdx_none rest (i + 1) h k hk

theorem getD_drop (l : List Int) (b k : Nat) :
    (l.drop b).getD k 0 = l.getD (b + k) 0 := by
  simp [List.getD_eq_getElem?_getD, List.getElem?_drop]

theorem getD_mem_of_lt {l : List Int} {i : Nat} (h : i < l.length) :
    l.getD i 0 ∈ l := by
  rw [List.getD_eq_getElem?_getD, List.getElem?_eq_getElem h]
  exact List.getElem_mem h

theorem findPositionWithinThreshold_some {maxs : List Int} {allowed : Int}
    {b c : Nat} (h : findPositionWithinThreshold maxs allowed b = some c) :
    b ≤ c ∧ c < maxs.length ∧ maxs.getD c 0 ≤ allowed ∧
      ∀ j, b ≤ j → j < c → ¬(maxs.getD j 0 ≤ allowed) := by
  obtain ⟨h1, h2, h3, h4⟩ := findFromIdx_some (maxs.drop b) b c h
  rw [List.length_drop] at h2
  have hc : c < maxs.length := by omega
  refine ⟨h1, hc, ?_, ?_⟩
  · rw [getD_drop, Nat.add_sub_cancel' h1] at h3
    exact h3
  · intro j hj1 hj2
    have := h4 (j - b) (by omega)
    rw [getD_drop, Nat.add_sub_cancel' hj1] at this
    exact this

theorem findPositionWithinThreshold_none {maxs : List Int} {allowed : Int}
    {b : Nat} (h : findPositionWithinThreshold maxs allowed b = none) :
    ∀ j, b ≤ j → j < maxs.length → ¬(maxs.getD j 0 ≤ allowed) := by
  intro j hj1 hj2
  have := findFromIdx_none (maxs.drop b) b h (j - b)
    (by rw [List.length_drop]; omega)
  rw [getD_drop, Nat.add_sub_cancel' hj1] at this
  exact this

/-- Maximum running position over the window of `span_size` tracks starting at
line `i`, following the words of the spec (the max running position across
the window `[i, i+span_size)`). -/
def specWindowMax (m : MasonryRunningPositions) (span_size i : Nat) : Int :=
  listMax ((m.running_positions.drop i).take span_size)

theorem maxPositions_length (m : MasonryRunningPositions) (span_size : Nat)
    (h1 : 1 ≤ span_size) (h2 : span_size ≤ m.running_positions.length) :
    (m.GetMaxPositionsForAllTracks span_size).length =
      m.running_positions.length - span_size + 1 := by
  rw [MasonryRunningPositions.GetMaxPositionsForAllTracks]
  by_cases hs : span_size = 1
  · rw [if_pos hs]
    omega
  · rw [if_neg hs]
    simp

theorem take_one_drop {l : List Int} {i : Nat} (h : i < l.length) :
    (l.drop i).take 1 = [l.getD i 0] := by
  rw [List.getD_eq_getElem?_getD, List.getElem?_eq_getElem h,
    List.drop_eq_getElem_cons h]
  rfl

theorem maxPositions_getD (m : MasonryRunningPositions) (span_size : Nat)
    (i : Nat) (hi : i < m.running_positions.length - span_size + 1) :
    (m.GetMaxPositionsForAllTracks span_size).getD i 0 =
      specWindowMax m span_size i := by
  rw [MasonryRunningPositions.GetMaxPositionsForAllTracks]
  by_cases hs : span_size = 1
  · subst hs
    rw [if_pos rfl, specWindowMax]
    by_cases hL : i < m.running_positions.length
    · rw [take_one_drop hL]
      simp [listMax]
    · have h0 : m.running_positions.length = 0 := by omega
      have he : m.running_positions = [] := List.length_eq_zero.mp h0
      simp [he, listMax]
  · rw [if_neg hs]
    have hmap : ((List.range (m.running_positions.length - span_size + 1)).map
        (fun j => m.GetMaxPositionForSpan ⟨j, j + span_size⟩)).getD i 0 =
        m.GetMaxPositionForSpan ⟨i, i + span_size⟩ := by
      rw [List.getD_eq_getElem?_getD, List.getElem?_map, List.getElem?_range hi]
      rfl
    rw [hmap, MasonryRunningPositions.GetMaxPositionForSpan, specWindowMax]
    have : GridSpan.SpanSize ⟨i, i + span_size⟩ = span_size := by
      simp [GridSpan.SpanSize]
    rw [this]

/-- C1: For every running-position vector and every span_size with
1 ≤ span_size ≤ number of tracks (and a non-negative tie threshold, which
guarantees an eligible line exists), GetFirstEligibleLine computes for each
fitting start line the window maximum, takes the global minimum `glob` of the
window maxima, treats as tie-eligible every line whose window maximum is
≤ glob + tie_threshold, and returns the first tie-eligible line at or after
the auto_placement_cursor, or, failing that, the first tie-eligible line
overall; it reports that line's window maximum as the output parameter. -/
theorem getFirstEligibleLine_chooses_first_tie_eligible
    (m : MasonryRunningPositions) (span_size : Nat)
    (h1 : 1 ≤ span_size) (h2 : span_size ≤ m.running_positions.length)
    (h3 : 0 ≤ m.tie_threshold) :
    ∃ glob c mx,
      (∃ i0, i0 < m.running_positions.length - span_size + 1 ∧
        glob = specWindowMax m span_size i0) ∧
      (∀ i, i < m.running_positions.length - span_size + 1 →
        glob ≤ specWindowMax m span_size i) ∧
      m.GetFirstEligibleLine span_size = some (⟨c, c + span_size⟩, mx) ∧
      c < m.running_positions.length - span_size + 1 ∧
      mx = specWindowMax m span_size c ∧
      mx ∈ (m.running_positions.drop c).take span_size ∧
      (∀ x ∈ (m.running_positions.drop c).take span_size, x ≤ mx) ∧
      specWindowMax m span_size c ≤ glob + m.tie_threshold ∧
      ((m.auto_placement_cursor ≤ c ∧
        ∀ j, m.auto_placement_cursor ≤ j → j < c →
          ¬(specWindowMax m span_size j ≤ glob + m.tie_threshold)) ∨
       ((∀ j, m.auto_placement_cursor ≤ j →
           j < m.running_positions.length - span_size + 1 →
           ¬(specWindowMax m span_size j ≤ glob + m.tie_threshold)) ∧
        (∀ j, j < c → ¬(specWindowMax m span_size j ≤ glob + m.tie_threshold)))) := by
  set maxs := m.GetMaxPositionsForAllTracks span_size with hmaxs
  have hlen : maxs.length = m.running_positions.length - span_size + 1 :=
    maxPositions_length m span_size h1 h2
  have hne : maxs ≠ [] := by
    intro hcon
    rw [hcon] at hlen
    simp at hlen
  have hgetD : ∀ j, j < m.running_positions.length - span_size + 1 →
      maxs.getD j 0 = specWindowMax m span_size j := by
    intro j hj
    rw [hmaxs]
    exact maxPositions_getD m span_size j hj
  obtain ⟨i0, hi0len, hi0⟩ := List.mem_iff_getElem.mp (listMin_mem hne)
  have hi0len' : i0 < m.running_positions.length - span_size + 1 := by omega
  have hi0D : maxs.getD i0 0 = listMin maxs := by
    rw [List.getD_eq_getElem?_getD, List.getElem?_eq_getElem hi0len, hi0]
    rfl
  have hglob_lb : ∀ i, i < m.running_positions.length - span_size + 1 →
      listMin maxs ≤ specWindowMax m span_size i := by
    intro i hi
    rw [← hgetD i hi]
    exact listMin_le (getD_mem_of_lt (by omega))
  have hwin_ne : ∀ c, c < m.running_positions.length - span_size + 1 →
      (m.running_positions.drop c).take span_size ≠ [] := by
    intro c hc
    have hlw : ((m.running_positions.drop c).take span_size).length =
        min span_size (m.running_positions.length - c) := by simp
    intro hcon
    rw [hcon] at hlw
    simp at hlw
    omega
  rcases hp : findPositionWithinThreshold maxs (listMin maxs + m.tie_threshold)
      m.auto_placement_cursor with _ | c
  · rcases hq : findPositionWithinThreshold maxs (listMin maxs + m.tie_threshold) 0
        with _ | c
    · exfalso
      refine findPositionWithinThreshold_none hq i0 (Nat.zero_le i0) hi0len ?_
      rw [hi0D]
      exact le_add_of_nonneg_right h3
    · obtain ⟨_, hclen, helig, hmin⟩ := findPositionWithinThreshold_some hq
      have hclen' : c < m.running_positions.length - span_size + 1 := by omega
      have hresult : m.GetFirstEligibleLine span_size =
          some (⟨c, c + span_size⟩, maxs.getD c 0) := by
        rw [MasonryRunningPositions.GetFirstEligibleLine]
        simp only [← hmaxs, hp, hq]
      refine ⟨listMin maxs, c, maxs.getD c 0,
        ⟨i0, hi0len', by rw [← hi0D, hgetD i0 hi0len']⟩, hglob_lb, hresult, hclen',
        (hgetD c hclen').symm ▸ rfl, ?_, ?_, ?_, ?_⟩
      · rw [hgetD c hclen']
        exact listMax_mem (hwin_ne c hclen')
      · intro x hx
        rw [hgetD c hclen']
        exact le_listMax hx
      · rw [← hgetD c hclen']
        exact helig
      · refine Or.inr ⟨?_, ?_⟩
        · intro j hj1 hj2
          rw [← hgetD j hj2]
          exact findPositionWithinThreshold_none hp j hj1 (by omega)
        · intro j hj
          have hjlen : j < m.running_positions.length - span_size + 1 := by omega
          rw [← hgetD j hjlen]
          exact hmin j (Nat.zero_le j) hj
  · obtain ⟨hbc, hclen, helig, hmin⟩ := findPositionWithinThreshold_some hp
    have hclen' : c < m.running_positions.length - span_size + 1 := by omega
    have hresult : m.GetFirstEligibleLine span_size =
        some (⟨c, c + span_size⟩, maxs.getD c 0) := by
      rw [MasonryRunningPositions.GetFirstEligibleLine]
      simp only [← hmaxs, hp]
    refine ⟨listMin maxs, c, maxs.getD c 0,
      ⟨i0, hi0len', by rw [← hi0D, hgetD i0 hi0len']⟩, hglob_lb, hresult, hclen',
      (hgetD c hclen').symm ▸ rfl, ?_, ?_, ?_, ?_⟩
    · rw [hgetD c hclen']
      exact listMax_mem (hwin_ne c hclen')
    · intro x hx
      rw [hgetD c hclen']
      exact le_listMax hx
    · rw [← hgetD c hclen']
      exact helig
    · refine Or.inl ⟨hbc, ?_⟩
      intro j hj1 hj2
      have hjlen : j < m.running_positions.length - span_size + 1 := by omega
      rw [← hgetD j hjlen]
      exact hmin j hj1 hj2

/-- Concrete running positions from the spec's tie-tolerance example:
tracks `[0, 0, 5]`, tie_threshold 0, auto_placement_cursor 1. -/
def exampleTieTracks : MasonryRunningPositions :=
  ⟨[0, 0, 5], 0, 1, false, [], []⟩

/-- C1 witness: the spec's concrete example. With running positions
`[0, 0, 5]`, span_size 1, tie_threshold 0 the tie-eligible lines are exactly
0 and 1, and with auto_placement_cursor 1 the chosen line is 1 with window
maximum 0. -/
theorem getFirstEligibleLine_chooses_first_tie_eligible_witness :
    (1 ≤ 1 ∧ 1 ≤ exampleTieTracks.running_positions.length ∧
      (0:Int) ≤ exampleTieTracks.tie_threshold) ∧
    (∃ glob c mx,
      (∃ i0, i0 < exampleTieTracks.running_positions.length - 1 + 1 ∧
        glob = specWindowMax exampleTieTracks 1 i0) ∧
      (∀ i, i < exampleTieTracks.running_positions.length - 1 + 1 →
        glob ≤ specWindowMax exampleTieTracks 1 i) ∧
      exampleTieTracks.GetFirstEligibleLine 1 = some (⟨c, c + 1⟩, mx) ∧
      c < exampleTieTracks.running_positions.length - 1 + 1 ∧
      mx = specWindowMax exampleTieTracks 1 c ∧
      mx ∈ (exampleTieTracks.running_positions.drop c).take 1 ∧
      (∀ x ∈ (exampleTieTracks.running_positions.drop c).take 1, x ≤ mx) ∧
      specWindowMax exampleTieTracks 1 c ≤ glob + exampleTieTracks.tie_threshold ∧
      ((exampleTieTracks.auto_placement_cursor ≤ c ∧
        ∀ j, exampleTieTracks.auto_placement_cursor ≤ j → j < c →
          ¬(specWindowMax exampleTieTracks 1 j ≤
            glob + exampleTieTracks.tie_threshold)) ∨
       ((∀ j, exampleTieTracks.auto_placement_cursor ≤ j →
           j < exampleTieTracks.running_positions.length - 1 + 1 →
           ¬(specWindowMax exampleTieTracks 1 j ≤
             glob + exampleTieTracks.tie_threshold)) ∧
        (∀ j, j < c →
          ¬(specWindowMax exampleTieTracks 1 j ≤
            glob + exampleTieTracks.tie_threshold))))) ∧
    exampleTieTracks.GetFirstEligibleLine 1 = some (⟨1, 2⟩, 0) ∧
    specWindowMax exampleTieTracks 1 0 ≤ 0 + exampleTieTracks.tie_threshold ∧
    specWindowMax exampleTieTracks 1 1 ≤ 0 + exampleTieTracks.tie_threshold ∧
    ¬(specWindowMax exampleTieTracks 1 2 ≤ 0 + exampleTieTracks.tie_threshold) :=
  ⟨⟨le_refl 1, by decide, by decide⟩,
   getFirstEligibleLine_chooses_first_tie_eligible exampleTieTracks 1
     (by decide) (by decide) (by decide),
   by decide, by decide, by decide, by decide⟩

/-- C10: For every running-position vector, span_size with
1 ≤ span_size ≤ number of tracks, in-bounds auto_placement_cursor and
non-negative tie_threshold, GetFirstEligibleLine returns a valid span:
the fallback scan from index 0 necessarily finds an eligible line (the
minimizing line itself qualifies), so the not-found branch is unreachable. -/
theorem getFirstEligibleLine_always_finds_line
    (m : MasonryRunningPositions) (span_size : Nat)
    (h1 : 1 ≤ span_size) (h2 : span_size ≤ m.running_positions.length)
    (h3 : m.auto_placement_cursor ≤ m.running_positions.length)
    (h4 : 0 ≤ m.tie_threshold) :
    (m.GetFirstEligibleLine span_size).isSome = true := by
  set maxs := m.GetMaxPositionsForAllTracks span_size with hmaxs
  have hlen : maxs.length = m.running_positions.length - span_size + 1 :=
    maxPositions_length m span_size h1 h2
  have hne : maxs ≠ [] := by
    intro hcon
    rw [hcon] at hlen
    simp at hlen
  obtain ⟨i0, hi0len, hi0⟩ := List.mem_iff_getElem.mp (listMin_mem hne)
  have hi0D : maxs.getD i0 0 = listMin maxs := by
    rw [List.getD_eq_getElem?_getD, List.getElem?_eq_getElem hi0len, hi0]
    rfl
  rcases hp : findPositionWithinThreshold maxs (listMin maxs + m.tie_threshold)
      m.auto_placement_cursor with _ | c
  · rcases hq : findPositionWithinThreshold maxs (listMin maxs + m.tie_threshold) 0
        with _ | c
    · exfalso
      refine findPositionWithinThreshold_none hq i0 (Nat.zero_le i0) hi0len ?_
      rw [hi0D]
      exact le_add_of_nonneg_right h4
    · rw [MasonryRunningPositions.GetFirstEligibleLine]
      simp only [← hmaxs, hp, hq]
      rfl
  · rw [MasonryRunningPositions.GetFirstEligibleLine]
    simp only [← hmaxs, hp]
    rfl

/-- C10 witness: a concrete two-track instance on which the line search
succeeds. -/
theorem getFirstEligibleLine_always_finds_line_witness :
    (1 ≤ 2 ∧
      2 ≤ (MasonryRunningPositions.mk [2, 7] 3 2 false [] []).running_positions.length ∧
      (MasonryRunningPositions.mk [2, 7] 3 2 false [] []).auto_placement_cursor ≤
        (MasonryRunningPositions.mk [2, 7] 3 2 false [] []).running_positions.length ∧
      (0:Int) ≤ (MasonryRunningPositions.mk [2, 7] 3 2 false [] []).tie_threshold) ∧
    ((MasonryRunningPositions.mk [2, 7] 3 2 false [] []).GetFirstEligibleLine 2).isSome
      = true :=
  ⟨by decide,
   getFirstEligibleLine_always_finds_line (MasonryRunningPositions.mk [2, 7] 3 2 false [] [])
     2 (by decide) (by decide) (by decide) (by decide)⟩

/-- LayoutUnit saturation maximum (raw int32 maximum), the source's
`LayoutUnit::Max()`. -/
def LayoutUnitMax : Int := 2147483647

/-- Update of a single track inside the loop of
UpdateRunningPositionsForSpan (masonry_running_positions.cc lines 63-79):
under dense packing record a new opening `[current, max_for_span)` when the
current running position falls short, then overwrite the running position. -/
def updateOneTrack (m : MasonryRunningPositions) (track_idx : Nat)
    (new_running_position : Int) (max_running_position_for_span : Option Int) :
    MasonryRunningPositions :=
  let current_running_position := m.running_positions.getD track_idx 0
  let m1 := match max_running_position_for_span with
    | some max_for_span =>
      if current_running_position < max_for_span then
        { m with track_collection_openings :=
            (m.track_collection_openings.set track_idx
              ((m.track_collection_openings.getD track_idx []) ++
                [(⟨current_running_position, max_for_span⟩ : TrackOpening)])) }
      else m
    | none => m
  { m1 with running_positions :=
      (m1.running_positions.set track_idx new_running_position) }

/-- UpdateRunningPositionsForSpan from masonry_running_positions.cc (lines
55-80): set every track of `span` to `new_running_position`, recording the
opening left behind when `max_running_position_for_span` is supplied. -/
def MasonryRunningPositions.UpdateRunningPositionsForSpan
    (m : MasonryRunningPositions) (span : GridSpan)
    (new_running_position : Int)
    (max_running_position_for_span : Option Int) : MasonryRunningPositions :=
  (List.range' span.startLine (span.endLine - span.startLine)).foldl
    (fun acc track_idx =>
      updateOneTrack acc track_idx new_running_position
        max_running_position_for_span)
    m

/-- CalculateUsedTrackSize from masonry_running_positions.cc (lines 93-103):
sum of cached track sizes over the span. -/
def MasonryRunningPositions.CalculateUsedTrackSize (m : MasonryRunningPositions)
    (span : GridSpan) : Int :=
  ((List.range' span.startLine (span.endLine - span.startLine)).map
    (fun start_line => m.track_collection_sizes.getD start_line 0)).sum

/-- Candidate placement result of the recursive opening search, as the
source's `EligibleTrackOpeningPath` (declared in the class header, used in
masonry_running_positions.cc): an optional start position, the consumed
per-track opening indices in innermost-to-outermost order, and the starting
track index.  Validity is a set start position. -/
structure EligibleTrackOpeningPath where
  start_position : Option Int
  track_opening_indices : List Nat
  starting_track_index : Nat
deriving DecidableEq, Repr

/-- IsValid of an `EligibleTrackOpeningPath`: whether a start position was
found and recorded. -/
def EligibleTrackOpeningPath.IsValid (r : EligibleTrackOpeningPath) : Bool :=
  r.start_position.isSome

/-- Default-constructed (invalid) `EligibleTrackOpeningPath`. -/
def EligibleTrackOpeningPath.invalid : EligibleTrackOpeningPath := ⟨none, [], 0⟩

/-- Success block of AccumulateTrackOpeningsToAccommodateItem (lines
150-155): record the overlap start the first time a full path is found
(which the source asserts happens in the innermost frame) and append the
current opening index. -/
def successBlock (overlap_start_position : Int) (res : EligibleTrackOpeningPath)
    (i : Nat) : EligibleTrackOpeningPath :=
  let res1 := if res.IsValid then res
    else { res with start_position := some overlap_start_position }
  { res1 with track_opening_indices := res1.track_opening_indices ++ [i] }

/-- Loop of AccumulateTrackOpeningsToAccommodateItem over the current
track's openings (lines 115-158).  `deeper` is the recursive call into the
next track (`none` when `num_tracks_remaining == 0`, in which case the
short-circuit `num_tracks_remaining == 0 || ...` skips the recursion). -/
def accumulateScan (item_stacking_axis_contribution : Int)
    (deeper : Option (Int → Int → EligibleTrackOpeningPath →
      EligibleTrackOpeningPath)) :
    Int → Int → List (Nat × TrackOpening) → EligibleTrackOpeningPath →
      EligibleTrackOpeningPath
  | _, _, [], res => res
  | prevS, prevE, (i, current_track_opening) :: rest, res =>
    let overlap_start_position := max prevS current_track_opening.start_position
    let overlap_end_position := min prevE current_track_opening.end_position
    let overlap_range_size := overlap_end_position - overlap_start_position
    if item_stacking_axis_contribution ≤ overlap_range_size then
      match deeper with
      | none => successBlock overlap_start_position res i
      | some d =>
        let res' := d overlap_start_position overlap_end_position res
        if res'.IsValid then successBlock overlap_start_position res' i
        else accumulateScan item_stacking_axis_contribution deeper prevS prevE
          rest res'
    else
      accumulateScan item_stacking_axis_contribution deeper prevS prevE rest res

/-- AccumulateTrackOpeningsToAccommodateItem from
masonry_running_positions.cc (lines 105-160), by recursion on
`num_tracks_remaining`; each level scans the current track's openings and
recurses into the next track with the narrowed overlap window. -/
def AccumulateTrackOpeningsToAccommodateItem
    (track_collection_openings : List (List TrackOpening))
    (item_stacking_axis_contribution : Int) :
    Nat → Nat → Int → Int → EligibleTrackOpeningPath → EligibleTrackOpeningPath
  | 0, track_to_check, prevS, prevE, res =>
    accumulateScan item_stacking_axis_contribution none prevS prevE
      ((track_collection_openings.getD track_to_check []).enum) res
  | (k+1), track_to_check, prevS, prevE, res =>
    accumulateScan item_stacking_axis_contribution
      (some fun s e r => AccumulateTrackOpeningsToAccommodateItem
        track_collection_openings item_stacking_axis_contribution k
        (track_to_check + 1) s e r)
      prevS prevE ((track_collection_openings.getD track_to_check []).enum) res

/-- While loop of GetEligibleTrackOpeningAndUpdateMasonryItemSpan
(masonry_running_positions.cc lines 184-237): slide the candidate span,
skipping user-positioned mismatches, spans of the wrong used track size, and
tracks that cannot improve on the best result; run the recursive opening
search on the rest and keep the path with the lowest start position.  The
fuel argument counts the remaining iterations of the source's
`item_span.EndLine() <= running_positions_.size()` condition (each iteration
increments both ends of the span by one). -/
def searchLoop (m : MasonryRunningPositions) (initial_span : GridSpan)
    (is_auto_placed : Bool) (span_size : Nat) (used_track_size : Int)
    (item_stacking_axis_contribution : Int) :
    Nat → GridSpan → EligibleTrackOpeningPath → EligibleTrackOpeningPath
  | 0, _, best => best
  | fuel + 1, item_span, best =>
    if ¬is_auto_placed = true ∧ item_span ≠ initial_span then best
    else if m.CalculateUsedTrackSize item_span ≠ used_track_size then
      searchLoop m initial_span is_auto_placed span_size used_track_size
        item_stacking_axis_contribution fuel
        ⟨item_span.startLine + 1, item_span.endLine + 1⟩ best
    else
      let current_track := item_span.startLine
      let current_openings := m.track_collection_openings.getD current_track []
      if current_openings = [] ∨
          (best.IsValid = true ∧
            (current_openings.headD ⟨0, 0⟩).start_position ≥
              best.start_position.getD 0) then
        searchLoop m initial_span is_auto_placed span_size used_track_size
          item_stacking_axis_contribution fuel
          ⟨item_span.startLine + 1, item_span.endLine + 1⟩ best
      else
        let eligible_track_opening_result :=
          AccumulateTrackOpeningsToAccommodateItem m.track_collection_openings
            item_stacking_axis_contribution (span_size - 1) current_track 0
            LayoutUnitMax EligibleTrackOpeningPath.invalid
        let best' :=
          if eligible_track_opening_result.IsValid = true ∧
              (best.IsValid = false ∨
                eligible_track_opening_result.start_position.getD 0 <
                  best.start_position.getD 0) then
            { eligible_track_opening_result with
                starting_track_index := current_track }
          else best
        searchLoop m initial_span is_auto_placed span_size used_track_size
          item_stacking_axis_contribution fuel
          ⟨item_span.startLine + 1, item_span.endLine + 1⟩ best'

/-- Consumption of a single chosen opening (masonry_running_positions.cc
lines 252-277): delete it when the item fills it exactly; otherwise insert
the split-off opening above the item when the placement start differs from
the opening's start, then advance the consumed opening's start_position by
the item size. -/
def consumeOpening (item_stacking_axis_contribution placement_start : Int)
    (track_openings : List TrackOpening) (track_opening_index : Nat) :
    List TrackOpening :=
  let current_track_opening := track_openings.getD track_opening_index ⟨0, 0⟩
  if item_stacking_axis_contribution = current_track_opening.Size then
    track_openings.eraseIdx track_opening_index
  else
    let inserted :=
      if current_track_opening.start_position ≠ placement_start then
        (track_openings.insertIdx track_opening_index
          ⟨current_track_opening.start_position, placement_start⟩,
          track_opening_index + 1)
      else (track_openings, track_opening_index)
    inserted.1.set inserted.2
      ⟨current_track_opening.start_position + item_stacking_axis_contribution,
        (inserted.1.getD inserted.2 ⟨0, 0⟩).end_position⟩

/-- Reverse walk over the consumed opening indices (lines 245-278),
decrementing the track index before each step as the source does. -/
def consumeOpenings (item_stacking_axis_contribution placement_start : Int) :
    List (List TrackOpening) → Nat → List Nat → List (List TrackOpening)
  | openings, _, [] => openings
  | openings, current_track_index, track_opening_index :: rest =>
    let cti := current_track_index - 1
    let updated := openings.set cti
      (consumeOpening item_stacking_axis_contribution placement_start
        (openings.getD cti []) track_opening_index)
    consumeOpenings item_stacking_axis_contribution placement_start updated cti
      rest

/-- GetEligibleTrackOpeningAndUpdateMasonryItemSpan from
masonry_running_positions.cc (lines 162-294).  The masonry item is modelled
by its resolved span and auto-placement flag; the result is the updated
state, the item's (possibly updated) span, and the returned start position
(the default-constructed zero when no eligible opening path was found). -/
def MasonryRunningPositions.GetEligibleTrackOpeningAndUpdateMasonryItemSpan
    (m : MasonryRunningPositions) (initial_span : GridSpan)
    (is_auto_placed : Bool) (item_stacking_axis_contribution : Int) :
    MasonryRunningPositions × GridSpan × Int :=
  let span_size := initial_span.SpanSize
  let used_track_size := m.CalculateUsedTrackSize initial_span
  let start_span := if is_auto_placed then (⟨0, span_size⟩ : GridSpan)
    else initial_span
  let fuel := m.running_positions.length + 1 - start_span.endLine
  let highest := searchLoop m initial_span is_auto_placed span_size
    used_track_size item_stacking_axis_contribution fuel start_span
    EligibleTrackOpeningPath.invalid
  if highest.IsValid then
    let updated_openings := consumeOpenings item_stacking_axis_contribution
      (highest.start_position.getD 0) m.track_collection_openings
      (highest.starting_track_index + span_size) highest.track_opening_indices
    ({ m with track_collection_openings := updated_openings },
      ⟨highest.starting_track_index, highest.starting_track_index + span_size⟩,
      highest.start_position.getD 0)
  else
    (m, initial_span, highest.start_position.getD 0)

/-- Existence of a path of per-track openings accommodating the item: one
opening per remaining track on consecutive tracks, every pairwise-narrowed
overlap window at least the item's stacking-axis size.  The carried value is
the innermost frame's overlap start position. -/
inductive FitsPath (openingsAll : List (List TrackOpening)) (item : Int) :
    Int → Int → Nat → Nat → Int → Prop
  | bottom {prevS prevE : Int} {track : Nat} {o : TrackOpening}
      (ho : o ∈ openingsAll.getD track [])
      (hfit : item ≤ min prevE o.end_position - max prevS o.start_position) :
      FitsPath openingsAll item prevS prevE 0 track (max prevS o.start_position)
  | step {prevS prevE : Int} {k track : Nat} {o : TrackOpening} {s : Int}
      (ho : o ∈ openingsAll.getD track [])
      (hfit : item ≤ min prevE o.end_position - max prevS o.start_position)
      (htail : FitsPath openingsAll item (max prevS o.start_position)
        (min prevE o.end_position) k (track + 1) s) :
      FitsPath openingsAll item prevS prevE (k + 1) track s

theorem successBlock_isValid (os : Int) (res : EligibleTrackOpeningPath)
    (i : Nat) : (successBlock os res i).IsValid = true := by
  unfold successBlock EligibleTrackOpeningPath.IsValid
  by_cases h : res.start_position.isSome = true
  · simp [EligibleTrackOpeningPath.IsValid, h]
  · simp [EligibleTrackOpeningPath.IsValid, h]

theorem accumulateScan_cases_none (item : Int) :
    ∀ (pending : List (Nat × TrackOpening)) (prevS prevE : Int),
      accumulateScan item none prevS prevE pending
          EligibleTrackOpeningPath.invalid =
        EligibleTrackOpeningPath.invalid ∨
      (accumulateScan item none prevS prevE pending
        EligibleTrackOpeningPath.invalid).IsValid = true := by
  intro pending
  induction pending with
  | nil =>
    intro prevS prevE
    exact Or.inl rfl
  | cons io rest ih =>
    intro prevS prevE
    obtain ⟨i, o⟩ := io
    by_cases hfit : item ≤ min prevE o.end_position - max prevS o.start_position
    · right
      simp only [accumulateScan, if_pos hfit]
      exact successBlock_isValid _ _ _
    · simp only [accumulateScan, if_neg hfit]
      exact ih prevS prevE

theorem accumulateScan_cases_some (item : Int)
    (d : Int → Int → EligibleTrackOpeningPath → EligibleTrackOpeningPath)
    (hd : ∀ s e, d s e EligibleTrackOpeningPath.invalid =
        EligibleTrackOpeningPath.invalid ∨
      (d s e EligibleTrackOpeningPath.invalid).IsValid = true) :
    ∀ (pending : List (Nat × TrackOpening)) (prevS prevE : Int),
      accumulateScan item (some d) prevS prevE pending
          EligibleTrackOpeningPath.invalid =
        EligibleTrackOpeningPath.invalid ∨
      (accumulateScan item (some d) prevS prevE pending
        EligibleTrackOpeningPath.invalid).IsValid = true := by
  intro pending
  induction pending with
  | nil =>
    intro prevS prevE
    exact Or.inl rfl
  | cons io rest ih =>
    intro prevS prevE
    obtain ⟨i, o⟩ := io
    by_cases hfit : item ≤ min prevE o.end_position - max prevS o.start_position
    · rcases hd (max prevS o.start_position) (min prevE o.end_position)
        with hinv | hval
      · simp only [accumulateScan, if_pos hfit]
        rw [hinv]
        rw [if_neg (by simp [EligibleTrackOpeningPath.invalid,
          EligibleTrackOpeningPath.IsValid])]
        exact ih prevS prevE
      · right
        simp only [accumulateScan, if_pos hfit]
        rw [if_pos hval]
        exact successBlock_isValid _ _ _
    · simp only [accumulateScan, if_neg hfit]
      exact ih prevS prevE

theorem accumulate_cases (openingsAll : List (List TrackOpening)) (item : Int) :
    ∀ (k track : Nat) (prevS prevE : Int),
      AccumulateTrackOpeningsToAccommodateItem openingsAll item k track prevS
          prevE EligibleTrackOpeningPath.invalid =
        EligibleTrackOpeningPath.invalid ∨
      (AccumulateTrackOpeningsToAccommodateItem openingsAll item k track prevS
        prevE EligibleTrackOpeningPath.invalid).IsValid = true := by
  intro k
  induction k with
  | zero =>
    intro track prevS prevE
    exact accumulateScan_cases_none item _ prevS prevE
  | succ k ih =>
    intro track prevS prevE
    exact accumulateScan_cases_some item
      (fun s e r => AccumulateTrackOpeningsToAccommodateItem openingsAll
        item k (track + 1) s e r)
      (fun s e => ih (track + 1) s e) _ prevS prevE

theorem successBlock_invalid (os : Int) (i : Nat) :
    successBlock os EligibleTrackOpeningPath.invalid i = ⟨some os, [i], 0⟩ := rfl

theorem successBlock_of_valid {res : EligibleTrackOpeningPath}
    (h : res.IsValid = true) (os : Int) (i : Nat) :
    successBlock os res i =
      { res with track_opening_indices := res.track_opening_indices ++ [i] } := by
  unfold successBlock
  rw [if_pos h]

theorem invalid_not_isValid :
    EligibleTrackOpeningPath.invalid.IsValid = false := rfl

theorem invalid_isValid_ne_true :
    ¬ EligibleTrackOpeningPath.invalid.IsValid = true := by
  rw [invalid_not_isValid]
  exact Bool.false_ne_true

theorem mem_of_mem_enum {α : Type} {l : List α} {io : Nat × α}
    (h : io ∈ l.enum) : io.2 ∈ l := by
  obtain ⟨i, x⟩ := io
  rw [List.mk_mem_enum_iff_getElem?] at h
  obtain ⟨hlt, rfl⟩ := List.getElem?_eq_some.mp h
  exact List.getElem_mem hlt

theorem exists_enum_of_mem {α : Type} {l : List α} {x : α} (h : x ∈ l) :
    ∃ i, (i, x) ∈ l.enum := by
  obtain ⟨n, hn, rfl⟩ := List.mem_iff_getElem.mp h
  exact ⟨n, List.mk_mem_enum_iff_getElem?.mpr (List.getElem?_eq_getElem hn)⟩

theorem accumulateScan_none_sound (openingsAll : List (List TrackOpening))
    (item : Int) (track : Nat) :
    ∀ (pending : List (Nat × TrackOpening)) (prevS prevE : Int),
      (∀ io ∈ pending, io.2 ∈ openingsAll.getD track []) →
      (accumulateScan item none prevS prevE pending
        EligibleTrackOpeningPath.invalid).IsValid = true →
      ∃ s, (accumulateScan item none prevS prevE pending
          EligibleTrackOpeningPath.invalid).start_position = some s ∧
        (accumulateScan item none prevS prevE pending
          EligibleTrackOpeningPath.invalid).track_opening_indices.length = 1 ∧
        FitsPath openingsAll item prevS prevE 0 track s := by
  intro pending
  induction pending with
  | nil =>
    intro prevS prevE hsub hval
    rw [show accumulateScan item none prevS prevE []
        EligibleTrackOpeningPath.invalid = EligibleTrackOpeningPath.invalid
      from rfl, invalid_not_isValid] at hval
    cases hval
  | cons io rest ih =>
    intro prevS prevE hsub hval
    obtain ⟨i, o⟩ := io
    by_cases hfit : item ≤ min prevE o.end_position - max prevS o.start_position
    · have heq : accumulateScan item none prevS prevE ((i, o) :: rest)
          EligibleTrackOpeningPath.invalid =
          ⟨some (max prevS o.start_position), [i], 0⟩ := by
        simp only [accumulateScan, if_pos hfit]
        rfl
      refine ⟨max prevS o.start_position, by rw [heq], by simp [heq],
        FitsPath.bottom ?_ hfit⟩
      exact hsub (i, o) (List.mem_cons_self _ _)
    · have heq : accumulateScan item none prevS prevE ((i, o) :: rest)
          EligibleTrackOpeningPath.invalid =
          accumulateScan item none prevS prevE rest
            EligibleTrackOpeningPath.invalid := by
        simp only [accumulateScan, if_neg hfit]
      rw [heq] at hval ⊢
      exact ih prevS prevE (fun io h => hsub io (List.mem_cons_of_mem _ h)) hval

theorem accumulateScan_some_sound (openingsAll : List (List TrackOpening))
    (item : Int) (track k : Nat)
    (d : Int → Int → EligibleTrackOpeningPath → EligibleTrackOpeningPath)
    (hdc : ∀ s e, d s e EligibleTrackOpeningPath.invalid =
        EligibleTrackOpeningPath.invalid ∨
      (d s e EligibleTrackOpeningPath.invalid).IsValid = true)
    (hds : ∀ s e, (d s e EligibleTrackOpeningPath.invalid).IsValid = true →
      ∃ v, (d s e EligibleTrackOpeningPath.invalid).start_position = some v ∧
        (d s e EligibleTrackOpeningPath.invalid).track_opening_indices.length =
          k + 1 ∧
        FitsPath openingsAll item s e k (track + 1) v) :
    ∀ (pending : List (Nat × TrackOpening)) (prevS prevE : Int),
      (∀ io ∈ pending, io.2 ∈ openingsAll.getD track []) →
      (accumulateScan item (some d) prevS prevE pending
        EligibleTrackOpeningPath.invalid).IsValid = true →
      ∃ s, (accumulateScan item (some d) prevS prevE pending
          EligibleTrackOpeningPath.invalid).start_position = some s ∧
        (accumulateScan item (some d) prevS prevE pending
          EligibleTrackOpeningPath.invalid).track_opening_indices.length =
          k + 2 ∧
        FitsPath openingsAll item prevS prevE (k + 1) track s := by
  intro pending
  induction pending with
  | nil =>
    intro prevS prevE hsub hval
    rw [show accumulateScan item (some d) prevS prevE []
        EligibleTrackOpeningPath.invalid = EligibleTrackOpeningPath.invalid
      from rfl, invalid_not_isValid] at hval
    cases hval
  | cons io rest ih =>
    intro prevS prevE hsub hval
    obtain ⟨i, o⟩ := io
    by_cases hfit : item ≤ min prevE o.end_position - max prevS o.start_position
    · by_cases hv : (d (max prevS o.start_position) (min prevE o.end_position)
          EligibleTrackOpeningPath.invalid).IsValid = true
      · have heq : accumulateScan item (some d) prevS prevE ((i, o) :: rest)
            EligibleTrackOpeningPath.invalid =
            successBlock (max prevS o.start_position)
              (d (max prevS o.start_position) (min prevE o.end_position)
                EligibleTrackOpeningPath.invalid) i := by
          simp only [accumulateScan, if_pos hfit]
          rw [if_pos hv]
        obtain ⟨v, hstart, hlen, hfp⟩ :=
          hds (max prevS o.start_position) (min prevE o.end_position) hv
        rw [heq, successBlock_of_valid hv]
        refine ⟨v, hstart, ?_, FitsPath.step
          (hsub (i, o) (List.mem_cons_self _ _)) hfit hfp⟩
        simp [hlen]
      · have hinv : d (max prevS o.start_position) (min prevE o.end_position)
            EligibleTrackOpeningPath.invalid =
            EligibleTrackOpeningPath.invalid := by
          rcases hdc (max prevS o.start_position) (min prevE o.end_position)
            with h | h
          · exact h
          · exact absurd h hv
        have heq : accumulateScan item (some d) prevS prevE ((i, o) :: rest)
            EligibleTrackOpeningPath.invalid =
            accumulateScan item (some d) prevS prevE rest
              EligibleTrackOpeningPath.invalid := by
          simp only [accumulateScan, if_pos hfit]
          rw [hinv, if_neg invalid_isValid_ne_true]
        rw [heq] at hval ⊢
        exact ih prevS prevE (fun io h => hsub io (List.mem_cons_of_mem _ h))
          hval
    · have heq : accumulateScan item (some d) prevS prevE ((i, o) :: rest)
          EligibleTrackOpeningPath.invalid =
          accumulateScan item (some d) prevS prevE rest
            EligibleTrackOpeningPath.invalid := by
        simp only [accumulateScan, if_neg hfit]
      rw [heq] at hval ⊢
      exact ih prevS prevE (fun io h => hsub io (List.mem_cons_of_mem _ h)) hval

theorem accumulate_sound (openingsAll : List (List TrackOpening)) (item : Int) :
    ∀ (k track : Nat) (prevS prevE : Int),
      (AccumulateTrackOpeningsToAccommodateItem openingsAll item k track prevS
        prevE EligibleTrackOpeningPath.invalid).IsValid = true →
      ∃ s, (AccumulateTrackOpeningsToAccommodateItem openingsAll item k track
          prevS prevE EligibleTrackOpeningPath.invalid).start_position =
          some s ∧
        (AccumulateTrackOpeningsToAccommodateItem openingsAll item k track
          prevS prevE
          EligibleTrackOpeningPath.invalid).track_opening_indices.length =
          k + 1 ∧
        FitsPath openingsAll item prevS prevE k track s := by
  intro k
  induction k with
  | zero =>
    intro track prevS prevE hval
    exact accumulateScan_none_sound openingsAll item track _ prevS prevE
      (fun io h => mem_of_mem_enum h) hval
  | succ k ih =>
    intro track prevS prevE hval
    exact accumulateScan_some_sound openingsAll item track k
      (fun s e r => AccumulateTrackOpeningsToAccommodateItem openingsAll item k
        (track + 1) s e r)
      (fun s e => accumulate_cases openingsAll item k (track + 1) s e)
      (fun s e hv => ih (track + 1) s e hv)
      _ prevS prevE (fun io h => mem_of_mem_enum h) hval

theorem accumulateScan_none_complete (item : Int) :
    ∀ (pending : List (Nat × TrackOpening)) (prevS prevE : Int),
      (∃ io ∈ pending, item ≤
        min prevE io.2.end_position - max prevS io.2.start_position) →
      (accumulateScan item none prevS prevE pending
        EligibleTrackOpeningPath.invalid).IsValid = true := by
  intro pending
  induction pending with
  | nil =>
    intro prevS prevE hw
    obtain ⟨io, hmem, _⟩ := hw
    cases hmem
  | cons io rest ih =>
    intro prevS prevE hw
    obtain ⟨i, o⟩ := io
    by_cases hfit : item ≤ min prevE o.end_position - max prevS o.start_position
    · simp only [accumulateScan, if_pos hfit]
      exact successBlock_isValid _ _ _
    · simp only [accumulateScan, if_neg hfit]
      obtain ⟨jo, hmem, hjo⟩ := hw
      rcases List.mem_cons.mp hmem with h | h
      · subst h
        exact absurd hjo hfit
      · exact ih prevS prevE ⟨jo, h, hjo⟩

theorem accumulateScan_some_complete (openingsAll : List (List TrackOpening))
    (item : Int) (track k : Nat)
    (d : Int → Int → EligibleTrackOpeningPath → EligibleTrackOpeningPath)
    (hdc : ∀ s e, d s e EligibleTrackOpeningPath.invalid =
        EligibleTrackOpeningPath.invalid ∨
      (d s e EligibleTrackOpeningPath.invalid).IsValid = true)
    (hdcomp : ∀ s e v, FitsPath openingsAll item s e k (track + 1) v →
      (d s e EligibleTrackOpeningPath.invalid).IsValid = true) :
    ∀ (pending : List (Nat × TrackOpening)) (prevS prevE : Int),
      (∃ io ∈ pending,
        item ≤ min prevE io.2.end_position - max prevS io.2.start_position ∧
        ∃ v, FitsPath openingsAll item (max prevS io.2.start_position)
          (min prevE io.2.end_position) k (track + 1) v) →
      (accumulateScan item (some d) prevS prevE pending
        EligibleTrackOpeningPath.invalid).IsValid = true := by
  intro pending
  induction pending with
  | nil =>
    intro prevS prevE hw
    obtain ⟨io, hmem, _⟩ := hw
    cases hmem
  | cons io rest ih =>
    intro prevS prevE hw
    obtain ⟨i, o⟩ := io
    by_cases hfit : item ≤ min prevE o.end_position - max prevS o.start_position
    · by_cases hv : (d (max prevS o.start_position) (min prevE o.end_position)
          EligibleTrackOpeningPath.invalid).IsValid = true
      · simp only [accumulateScan, if_pos hfit]
        rw [if_pos hv]
        exact successBlock_isValid _ _ _
      · have hinv : d (max prevS o.start_position) (min prevE o.end_position)
            EligibleTrackOpeningPath.invalid =
            EligibleTrackOpeningPath.invalid := by
          rcases hdc (max prevS o.start_position) (min prevE o.end_position)
            with h | h
          · exact h
          · exact absurd h hv
        simp only [accumulateScan, if_pos hfit]
        rw [hinv, if_neg invalid_isValid_ne_true]
        obtain ⟨jo, hmem, hjfit, v, hjfp⟩ := hw
        rcases List.mem_cons.mp hmem with h | h
        · subst h
          exact absurd (hdcomp _ _ v hjfp) hv
        · exact ih prevS prevE ⟨jo, h, hjfit, v, hjfp⟩
    · simp only [accumulateScan, if_neg hfit]
      obtain ⟨jo, hmem, hjfit, v, hjfp⟩ := hw
      rcases List.mem_cons.mp hmem with h | h
      · subst h
        exact absurd hjfit hfit
      · exact ih prevS prevE ⟨jo, h, hjfit, v, hjfp⟩

theorem accumulate_complete (openingsAll : List (List TrackOpening))
    (item : Int) :
    ∀ (k track : Nat) (prevS prevE : Int) (s : Int),
      FitsPath openingsAll item prevS prevE k track s →
      (AccumulateTrackOpeningsToAccommodateItem openingsAll item k track prevS
        prevE EligibleTrackOpeningPath.invalid).IsValid = true := by
  intro k
  induction k with
  | zero =>
    intro track prevS prevE s hfp
    cases hfp with
    | bottom ho hfit =>
      obtain ⟨i, hienum⟩ := exists_enum_of_mem ho
      exact accumulateScan_none_complete item _ prevS prevE
        ⟨(i, _), hienum, hfit⟩
  | succ k ih =>
    intro track prevS prevE s hfp
    cases hfp with
    | step ho hfit htail =>
      obtain ⟨i, hienum⟩ := exists_enum_of_mem ho
      exact accumulateScan_some_complete openingsAll item track k
        (fun s e r => AccumulateTrackOpeningsToAccommodateItem openingsAll
          item k (track + 1) s e r)
        (fun s e => accumulate_cases openingsAll item k (track + 1) s e)
        (fun s e v h => ih (track + 1) s e v h)
        _ prevS prevE ⟨(i, _), hienum, hfit, s, htail⟩

/-- C4: AccumulateTrackOpeningsToAccommodateItem (run on the
default-invalid result, as the source always does) succeeds if and only if
a path of per-track openings exists whose pairwise-narrowed overlap window
fits the item on every track of the path; and on success the result's
start position is exactly the innermost frame's overlap start (the value
carried by `FitsPath`, fixed at `num_tracks_remaining == 0`), while the
outer frames only append their opening indices — one index per frame, so
exactly `num_tracks_remaining + 1` in total. -/
theorem accumulate_finds_path_iff (openingsAll : List (List TrackOpening))
    (item : Int) (num_tracks_remaining track : Nat) (prevS prevE : Int) :
    ((AccumulateTrackOpeningsToAccommodateItem openingsAll item
        num_tracks_remaining track prevS prevE
        EligibleTrackOpeningPath.invalid).IsValid = true ↔
      ∃ s, FitsPath openingsAll item prevS prevE num_tracks_remaining track s) ∧
    (∀ s, (AccumulateTrackOpeningsToAccommodateItem openingsAll item
        num_tracks_remaining track prevS prevE
        EligibleTrackOpeningPath.invalid).start_position = some s →
      FitsPath openingsAll item prevS prevE num_tracks_remaining track s ∧
      (AccumulateTrackOpeningsToAccommodateItem openingsAll item
        num_tracks_remaining track prevS prevE
        EligibleTrackOpeningPath.invalid).track_opening_indices.length =
        num_tracks_remaining + 1) := by
  constructor
  · constructor
    · intro hval
      obtain ⟨s, _, _, hfp⟩ := accumulate_sound openingsAll item
        num_tracks_remaining track prevS prevE hval
      exact ⟨s, hfp⟩
    · intro hex
      obtain ⟨s, hfp⟩ := hex
      exact accumulate_complete openingsAll item num_tracks_remaining track
        prevS prevE s hfp
  · intro s hs
    have hval : (AccumulateTrackOpeningsToAccommodateItem openingsAll item
        num_tracks_remaining track prevS prevE
        EligibleTrackOpeningPath.invalid).IsValid = true := by
      rw [EligibleTrackOpeningPath.IsValid, hs]
      rfl
    obtain ⟨s', hstart', hlen, hfp⟩ := accumulate_sound openingsAll item
      num_tracks_remaining track prevS prevE hval
    have : s' = s := by
      rw [hs] at hstart'
      exact (Option.some.inj hstart').symm
    subst this
    exact ⟨hfp, hlen⟩

/-- C4 witness: a concrete single-track search in which the recursive
search succeeds; the opening `[0, 10)` fits the item of size 5 and the
result records start position 0 with exactly one consumed opening index. -/
theorem accumulate_finds_path_iff_witness :
    FitsPath [[⟨0, 10⟩]] 5 0 100 0 0 0 ∧
    (AccumulateTrackOpeningsToAccommodateItem [[⟨0, 10⟩]] 5 0 0 0 100
      EligibleTrackOpeningPath.invalid).track_opening_indices.length = 0 + 1 :=
  (accumulate_finds_path_iff [[⟨0, 10⟩]] 5 0 0 0 100).2 0 (by decide)

theorem getD_set_cases (l : List Int) (t : Nat) (p : Int) (i : Nat) :
    (i = t ∧ t < l.length ∧ (l.set t p).getD i 0 = p) ∨
    (l.set t p).getD i 0 = l.getD i 0 := by
  by_cases hit : i = t
  · subst hit
    by_cases hlen : i < l.length
    · refine Or.inl ⟨rfl, hlen, ?_⟩
      rw [List.getD_eq_getElem?_getD, List.getElem?_set_eq hlen]
      rfl
    · right
      rw [List.set_eq_of_length_le (by omega)]
  · right
    rw [List.getD_eq_getElem?_getD, List.getElem?_set_ne (fun h => hit h.symm),
      ← List.getD_eq_getElem?_getD]

theorem update_none_monotone (p : Int) :
    ∀ (L : List Nat) (m : MasonryRunningPositions),
      (∀ t ∈ L, m.running_positions.getD t 0 ≤ p) →
      ∀ i, m.running_positions.getD i 0 ≤
        ((L.foldl (fun acc t => updateOneTrack acc t p none)
          m).running_positions.getD i 0) := by
  intro L
  induction L with
  | nil =>
    intro m h i
    exact le_refl _
  | cons t ts ih =>
    intro m h i
    rw [List.foldl_cons]
    have hstep : updateOneTrack m t p none =
        { m with running_positions := (m.running_positions.set t p) } := rfl
    rw [hstep]
    have h1 : ∀ u ∈ ts,
        (m.running_positions.set t p).getD u 0 ≤ p := by
      intro u hu
      rcases getD_set_cases m.running_positions t p u with ⟨_, _, hc⟩ | hc
      · rw [hc]
      · rw [hc]
        exact h u (List.mem_cons_of_mem t hu)
    have h2 : m.running_positions.getD i 0 ≤
        (m.running_positions.set t p).getD i 0 := by
      rcases getD_set_cases m.running_positions t p i with ⟨hit, _, hc⟩ | hc
      · rw [hc, hit]
        exact h t (List.mem_cons_self t ts)
      · rw [hc]
    exact le_trans h2
      (ih { m with running_positions := (m.running_positions.set t p) } h1 i)

/-- C5 counterexample: UpdateRunningPositionsForSpan under non-dense packing
(no max_running_position_for_span) unconditionally overwrites, so a call
with a smaller new_running_position decreases a track's running position:
with running positions `[5]` and new position 3 the track drops from 5 to
3. -/
theorem updateRunningPositions_not_monotonic :
    ¬((MasonryRunningPositions.mk [5] 0 0 false [[]] []).running_positions.getD
        0 0 ≤
      ((MasonryRunningPositions.mk [5] 0 0 false [[]]
        []).UpdateRunningPositionsForSpan ⟨0, 1⟩ 3
          none).running_positions.getD 0 0) := by decide

/-- C5 (amended): under non-dense packing, running positions are
monotonically non-decreasing across UpdateRunningPositionsForSpan calls
provided each call's new_running_position is at least every spanned track's
current running position (which the masonry layout callers guarantee by
passing the span's max position plus the item size). -/
theorem updateRunningPositions_monotonic_of_le
    (m : MasonryRunningPositions) (span : GridSpan)
    (new_running_position : Int) (i : Nat)
    (h : ∀ t ∈ List.range' span.startLine (span.endLine - span.startLine),
      m.running_positions.getD t 0 ≤ new_running_position) :
    m.running_positions.getD i 0 ≤
      (m.UpdateRunningPositionsForSpan span new_running_position
        none).running_positions.getD i 0 :=
  update_none_monotone new_running_position _ m h i

/-- C5 witness: a concrete in-bounds monotone update, new position 5 over
tracks `[1, 2]`. -/
theorem updateRunningPositions_monotonic_of_le_witness :
    (∀ t ∈ List.range' 0 (2 - 0),
      (MasonryRunningPositions.mk [1, 2] 0 0 false [] []).running_positions.getD
        t 0 ≤ 5) ∧
    (MasonryRunningPositions.mk [1, 2] 0 0 false [] []).running_positions.getD
        0 0 ≤
      ((MasonryRunningPositions.mk [1, 2] 0 0 false []
        []).UpdateRunningPositionsForSpan ⟨0, 2⟩ 5
          none).running_positions.getD 0 0 :=
  ⟨by decide, updateRunningPositions_monotonic_of_le
    (MasonryRunningPositions.mk [1, 2] 0 0 false [] []) ⟨0, 2⟩ 5 0 (by decide)⟩

/-- Invariant on one track's opening list (spec property 1): ordered by
position, no two openings overlap, and every opening is non-degenerate. -/
def OpeningsWellFormed (l : List TrackOpening) : Prop :=
  l.Pairwise (fun a b => a.end_position ≤ b.start_position) ∧
  ∀ o ∈ l, o.start_position < o.end_position

instance (l : List TrackOpening) : Decidable (OpeningsWellFormed l) :=
  inferInstanceAs (Decidable
    (l.Pairwise (fun a b : TrackOpening => a.end_position ≤ b.start_position) ∧
      ∀ o ∈ l, o.start_position < o.end_position))

/-- C2: evaluation at the failing input.  Two tracks with openings
`[0, 100)` and `[60, 100)`, a span-2 item of size 10: the search places the
item at start position 60, but consuming track 0's opening advances its
start by the item size from the opening's start (0 → 10) rather than from
the placement start, leaving openings `[0, 60)` and `[10, 100)` instead of
the exact unused remainder `[0, 60)` and `[70, 100)`. -/
theorem getEligibleTrackOpening_wrong_remainder :
    ((MasonryRunningPositions.mk [100, 100] 0 0 true [[⟨0, 100⟩], [⟨60, 100⟩]]
        [10, 10]).GetEligibleTrackOpeningAndUpdateMasonryItemSpan ⟨0, 2⟩ true
        10) =
      (MasonryRunningPositions.mk [100, 100] 0 0 true
        [[⟨0, 60⟩, ⟨10, 100⟩], [⟨70, 100⟩]] [10, 10], ⟨0, 2⟩, 60) ∧
    ¬(((MasonryRunningPositions.mk [100, 100] 0 0 true
        [[⟨0, 100⟩], [⟨60, 100⟩]]
        [10, 10]).GetEligibleTrackOpeningAndUpdateMasonryItemSpan ⟨0, 2⟩ true
        10).1.track_collection_openings.getD 0 [] =
      [⟨0, 60⟩, ⟨70, 100⟩]) := by
  constructor
  · decide
  · decide

/-- C3: evaluation at the failing input.  Both input opening lists satisfy
the non-overlap invariant, but after
GetEligibleTrackOpeningAndUpdateMasonryItemSpan places a span-2 item of
size 5 at start position 30, track 0's list becomes `[0, 30), [5, 50)` —
two overlapping openings — so the mutation does not preserve the
invariant. -/
theorem getEligibleTrackOpening_breaks_invariant :
    (∀ l ∈ [[(⟨0, 50⟩ : TrackOpening)], [⟨30, 50⟩]], OpeningsWellFormed l) ∧
    ¬OpeningsWellFormed
      (((MasonryRunningPositions.mk [50, 50] 0 0 true [[⟨0, 50⟩], [⟨30, 50⟩]]
        [10, 10]).GetEligibleTrackOpeningAndUpdateMasonryItemSpan ⟨0, 2⟩ true
        5).1.track_collection_openings.getD 0 []) := by
  constructor
  · decide
  · decide

theorem searchLoop_valid_source (m : MasonryRunningPositions)
    (initial_span : GridSpan) (is_auto_placed : Bool) (span_size : Nat)
    (used_track_size item : Int) :
    ∀ (fuel : Nat) (item_span : GridSpan) (best : EligibleTrackOpeningPath),
      item_span.endLine = item_span.startLine + span_size →
      item_span.endLine + fuel ≤ m.running_positions.length + 1 →
      (searchLoop m initial_span is_auto_placed span_size used_track_size item
        fuel item_span best).IsValid = true →
      best.IsValid = true ∨
      ∃ t s, t + span_size ≤ m.running_positions.length ∧
        m.CalculateUsedTrackSize ⟨t, t + span_size⟩ = used_track_size ∧
        FitsPath m.track_collection_openings item 0 LayoutUnitMax
          (span_size - 1) t s := by
  intro fuel
  induction fuel with
  | zero =>
    intro item_span best hwidth hbound hval
    exact Or.inl hval
  | succ fuel ih =>
    intro item_span best hwidth hbound hval
    have hwidth1 : (GridSpan.mk (item_span.startLine + 1)
        (item_span.endLine + 1)).endLine =
        (GridSpan.mk (item_span.startLine + 1)
          (item_span.endLine + 1)).startLine + span_size := by
      show item_span.endLine + 1 = item_span.startLine + 1 + span_size
      omega
    have hbound1 : (GridSpan.mk (item_span.startLine + 1)
        (item_span.endLine + 1)).endLine + fuel ≤
        m.running_positions.length + 1 := by
      show item_span.endLine + 1 + fuel ≤ m.running_positions.length + 1
      omega
    simp only [searchLoop] at hval
    by_cases c1 : ¬is_auto_placed = true ∧ item_span ≠ initial_span
    · rw [if_pos c1] at hval
      exact Or.inl hval
    · rw [if_neg c1] at hval
      by_cases c2 : m.CalculateUsedTrackSize item_span ≠ used_track_size
      · rw [if_pos c2] at hval
        exact ih _ best hwidth1 hbound1 hval
      · rw [if_neg c2] at hval
        by_cases c3 : m.track_collection_openings.getD item_span.startLine []
              = [] ∨
            (best.IsValid = true ∧
              ((m.track_collection_openings.getD item_span.startLine
                []).headD ⟨0, 0⟩).start_position ≥
                best.start_position.getD 0)
        · rw [if_pos c3] at hval
          exact ih _ best hwidth1 hbound1 hval
        · rw [if_neg c3] at hval
          by_cases c4 : (AccumulateTrackOpeningsToAccommodateItem
                m.track_collection_openings item (span_size - 1)
                item_span.startLine 0 LayoutUnitMax
                EligibleTrackOpeningPath.invalid).IsValid = true ∧
              (best.IsValid = false ∨
                (AccumulateTrackOpeningsToAccommodateItem
                  m.track_collection_openings item (span_size - 1)
                  item_span.startLine 0 LayoutUnitMax
                  EligibleTrackOpeningPath.invalid).start_position.getD 0 <
                  best.start_position.getD 0)
          · obtain ⟨hres_valid, _⟩ := c4
            obtain ⟨s, _, _, hfp⟩ := accumulate_sound
              m.track_collection_openings item (span_size - 1)
              item_span.startLine 0 LayoutUnitMax hres_valid
            refine Or.inr ⟨item_span.startLine, s, by omega, ?_, hfp⟩
            have hspan_eq : (GridSpan.mk item_span.startLine
                (item_span.startLine + span_size)) = item_span := by
              obtain ⟨a, b⟩ := item_span
              have hab : b = a + span_size := hwidth
              rw [hab]
            rw [hspan_eq]
            exact not_ne_iff.mp c2
          · rw [if_neg c4] at hval
            exact ih _ best hwidth1 hbound1 hval

/-- C6: when no opening-path exists for any candidate starting track, or no
candidate span matches the item's required total track size,
GetEligibleTrackOpeningAndUpdateMasonryItemSpan returns the invalid default
(zero) start position without error, and every track's opening list and the
item's resolved span are left unchanged. -/
theorem getEligibleTrackOpening_failure_leaves_state_unchanged
    (m : MasonryRunningPositions) (initial_span : GridSpan)
    (is_auto_placed : Bool) (item : Int)
    (hwidth : initial_span.startLine ≤ initial_span.endLine)
    (h : (∀ t s, ¬FitsPath m.track_collection_openings item 0 LayoutUnitMax
        (initial_span.SpanSize - 1) t s) ∨
      (∀ t, t + initial_span.SpanSize ≤ m.running_positions.length →
        m.CalculateUsedTrackSize ⟨t, t + initial_span.SpanSize⟩ ≠
          m.CalculateUsedTrackSize initial_span)) :
    m.GetEligibleTrackOpeningAndUpdateMasonryItemSpan initial_span
      is_auto_placed item = (m, initial_span, 0) := by
  rw [MasonryRunningPositions.GetEligibleTrackOpeningAndUpdateMasonryItemSpan]
  have hstart_width : (if is_auto_placed then
      (⟨0, initial_span.SpanSize⟩ : GridSpan) else initial_span).endLine =
      (if is_auto_placed then (⟨0, initial_span.SpanSize⟩ : GridSpan)
        else initial_span).startLine + initial_span.SpanSize := by
    by_cases ha : is_auto_placed = true
    · rw [if_pos ha]
      show initial_span.SpanSize = 0 + initial_span.SpanSize
      omega
    · rw [if_neg ha]
      rw [GridSpan.SpanSize]
      omega
  have hbest : (searchLoop m initial_span is_auto_placed initial_span.SpanSize
      (m.CalculateUsedTrackSize initial_span) item
      (m.running_positions.length + 1 -
        (if is_auto_placed then (⟨0, initial_span.SpanSize⟩ : GridSpan)
          else initial_span).endLine)
      (if is_auto_placed then (⟨0, initial_span.SpanSize⟩ : GridSpan)
        else initial_span)
      EligibleTrackOpeningPath.invalid).IsValid = false := by
    set start_span := if is_auto_placed then
      (⟨0, initial_span.SpanSize⟩ : GridSpan) else initial_span with hss
    by_cases hrange : start_span.endLine ≤ m.running_positions.length + 1
    · by_contra hcon
      rw [Bool.not_eq_false] at hcon
      rcases searchLoop_valid_source m initial_span is_auto_placed
        initial_span.SpanSize (m.CalculateUsedTrackSize initial_span) item
        (m.running_positions.length + 1 - start_span.endLine) start_span
        EligibleTrackOpeningPath.invalid hstart_width (by omega) hcon with
        hinv | ⟨t, s, htle, hused, hfp⟩
      · rw [invalid_not_isValid] at hinv
        cases hinv
      · rcases h with hnopath | hnosize
        · exact hnopath t s hfp
        · exact hnosize t htle hused
    · have hfuel : m.running_positions.length + 1 - start_span.endLine = 0 := by
        omega
      rw [hfuel]
      rfl
  rw [hbest]
  have hnone : (searchLoop m initial_span is_auto_placed initial_span.SpanSize
      (m.CalculateUsedTrackSize initial_span) item
      (m.running_positions.length + 1 -
        (if is_auto_placed then (⟨0, initial_span.SpanSize⟩ : GridSpan)
          else initial_span).endLine)
      (if is_auto_placed then (⟨0, initial_span.SpanSize⟩ : GridSpan)
        else initial_span)
      EligibleTrackOpeningPath.invalid).start_position = none := by
    have := hbest
    rw [EligibleTrackOpeningPath.IsValid] at this
    exact Option.not_isSome_iff_eq_none.mp (by rw [this]; exact
      Bool.false_ne_true)
  simp only [Bool.false_eq_true, if_false, hnone]
  rfl

/-- C6 witness: a single-track state with no openings at all; the search
fails, the state and span are unchanged, and the returned start position is
the zero default. -/
theorem getEligibleTrackOpening_failure_witness :
    ((⟨0, 1⟩ : GridSpan).startLine ≤ (⟨0, 1⟩ : GridSpan).endLine) ∧
    (MasonryRunningPositions.mk [10] 0 0 true [[]]
      [5]).GetEligibleTrackOpeningAndUpdateMasonryItemSpan ⟨0, 1⟩ true 3 =
      (MasonryRunningPositions.mk [10] 0 0 true [[]] [5], ⟨0, 1⟩, 0) :=
  ⟨by decide,
   getEligibleTrackOpening_failure_leaves_state_unchanged
     (MasonryRunningPositions.mk [10] 0 0 true [[]] [5]) ⟨0, 1⟩ true 3
     (by decide)
     (Or.inl (by
       intro t s hfp
       have hempty : ([([] : List TrackOpening)]).getD t [] = [] := by
         cases t with
         | zero => rfl
         | succ k => simp [List.getD_eq_getElem?_getD]
       cases hfp with
       | bottom ho hfit =>
         rw [hempty] at ho
         cases ho))⟩

/-- Track sizing direction, as the source's `GridTrackSizingDirection`. -/
inductive GridTrackSizingDirection
  | kForRows
  | kForColumns
deriving DecidableEq, Repr

/-- Edge intersection state of a cross gap, as the source's
`CrossGap::EdgeIntersectionState`. -/
inductive EdgeIntersectionState
  | kNone
  | kStart
  | kEnd
  | kBoth
deriving DecidableEq, Repr

/-- Logical (inline, block) offset pair, as the source's `LogicalOffset`. -/
structure LogicalOffset where
  inline_offset : Int
  block_offset : Int
deriving DecidableEq, Repr

/-- Cross-axis gap record: its logical offset and which content edges it
touches. -/
structure CrossGap where
  gap_offset : LogicalOffset
  edge_state : EdgeIntersectionState
deriving DecidableEq, Repr

/-- GetGapOffset accessor of a `CrossGap`. -/
def CrossGap.GetGapOffset (g : CrossGap) : LogicalOffset := g.gap_offset

/-- Cross-axis component of a cross gap's offset: the inline component in a
column flex container, the block component otherwise (mirrors how
PopulateCrossGapForCurrentItem builds the logical offset). -/
def CrossGap.CrossOffset (g : CrossGap) (is_column : Bool) : Int :=
  if is_column then g.gap_offset.inline_offset else g.gap_offset.block_offset

/-- Main-axis gap record.  The offset comes from the sources; the two range
fields are Modelled from the spec: the gap-geometry header (not among the
sources) keeps, per MainGap, the range of CrossGap indices occurring before
and after it, extended by the increment calls below. -/
structure MainGap where
  gap_offset : Int
  range_of_cross_gaps_before : List Nat
  range_of_cross_gaps_after : List Nat
deriving DecidableEq, Repr

/-- Modelled from the spec: `MainGap::IncrementRangeOfCrossGapsBefore`
(declared in the gap-geometry header, which is not among the sources)
extends the main gap's record of cross gaps before it. -/
def MainGap.IncrementRangeOfCrossGapsBefore (g : MainGap)
    (cross_gap_index : Nat) : MainGap :=
  { g with range_of_cross_gaps_before :=
      (g.range_of_cross_gaps_before ++ [cross_gap_index]) }

/-- Modelled from the spec: `MainGap::IncrementRangeOfCrossGapsAfter`
(declared in the gap-geometry header, which is not among the sources)
extends the main gap's record of cross gaps after it. -/
def MainGap.IncrementRangeOfCrossGapsAfter (g : MainGap)
    (cross_gap_index : Nat) : MainGap :=
  { g with range_of_cross_gaps_after :=
      (g.range_of_cross_gaps_after ++ [cross_gap_index]) }

/-- Container type of a gap geometry, as the source's
`GapGeometry::ContainerType`. -/
inductive ContainerType
  | kFlex
  | kGrid
  | kMulticol
deriving DecidableEq, Repr

/-- Gap geometry model handed to the painter: gap sizes per axis, main
direction, the gap records, and content-edge offsets (defaults are the
default-constructed state of the garbage-collected object). -/
structure GapGeometry where
  container_type : ContainerType
  inline_gap_size : Int := 0
  block_gap_size : Int := 0
  main_direction : GridTrackSizingDirection := GridTrackSizingDirection.kForRows
  main_gaps : List MainGap := []
  cross_gaps : List CrossGap := []
  content_inline_start : Int := 0
  content_inline_end : Int := 0
  content_block_start : Int := 0
  content_block_end : Int := 0
deriving DecidableEq, Repr

/-- One flex line: the indices of its items and its cross-axis offset (the
two members of the source's `FlexLine` used by the accumulator). -/
structure FlexLine where
  item_indices : List Nat
  cross_axis_offset : Int
deriving DecidableEq, Repr

/-- State of `FlexGapAccumulator` (flex_gap_accumulator.h): the gap sizes
and column flag from the constructor, the container builder quantities it
reads (border/scrollbar/padding edges and the container sizes), and the
accumulated gap records and content edges. -/
structure FlexGapAccumulator where
  gap_between_items : Int
  gap_between_lines : Int
  is_column : Bool
  bsp_inline_start : Int
  bsp_inline_end : Int
  bsp_block_start : Int
  bsp_block_end : Int
  container_inline_size : Int
  container_block_size : Int
  main_gaps : List MainGap
  cross_gaps : List CrossGap
  content_cross_start : Int
  content_cross_end : Int
  content_main_start : Int
  content_main_end : Int
deriving DecidableEq, Repr

/-- BuildGapGeometry from flex_gap_accumulator.cc (lines 12-72): null when
neither axis has both a nonzero gap size and a nonempty gap list, otherwise
the assembled geometry. -/
def FlexGapAccumulator.BuildGapGeometry (acc : FlexGapAccumulator) :
    Option GapGeometry :=
  let has_valid_main_axis_gaps :=
    !acc.main_gaps.isEmpty && decide (0 < acc.gap_between_lines)
  let has_valid_cross_axis_gaps :=
    !acc.cross_gaps.isEmpty && decide (0 < acc.gap_between_items)
  if !has_valid_main_axis_gaps && !has_valid_cross_axis_gaps then none
  else
    let g0 : GapGeometry := { container_type := ContainerType.kFlex }
    let g1 :=
      if acc.is_column then
        let ga := if 0 < acc.gap_between_lines then
          { g0 with inline_gap_size := acc.gap_between_lines } else g0
        let gb := if 0 < acc.gap_between_items then
          { ga with block_gap_size := acc.gap_between_items } else ga
        { gb with main_direction := GridTrackSizingDirection.kForColumns }
      else
        let ga := if 0 < acc.gap_between_lines then
          { g0 with block_gap_size := acc.gap_between_lines } else g0
        if 0 < acc.gap_between_items then
          { ga with inline_gap_size := acc.gap_between_items } else ga
    let g2 := if ¬acc.cross_gaps.isEmpty = true then
      { g1 with cross_gaps := acc.cross_gaps } else g1
    let g3 := if ¬acc.main_gaps.isEmpty = true then
      { g2 with main_gaps := acc.main_gaps } else g2
    some { g3 with
      content_inline_start :=
        (if acc.is_column then acc.content_cross_start
         else acc.content_main_start),
      content_inline_end :=
        (if acc.is_column then acc.content_cross_end
         else acc.content_main_end),
      content_block_start :=
        (if acc.is_column then acc.content_main_start
         else acc.content_cross_start),
      content_block_end :=
        (if acc.is_column then acc.content_main_end
         else acc.content_cross_end) }

/-- PopulateMainGapForFirstItem from flex_gap_accumulator.cc (lines
158-161): append a MainGap at the midline below the current line. -/
def FlexGapAccumulator.PopulateMainGapForFirstItem (acc : FlexGapAccumulator)
    (cross_end : Int) : FlexGapAccumulator :=
  { acc with main_gaps :=
      (acc.main_gaps ++ [⟨cross_end + acc.gap_between_lines / 2, [], []⟩]) }

/-- HandleCrossGapRangesForCurrentItem from flex_gap_accumulator.cc (lines
163-182): extend the owning MainGap's before-range and the previous line's
MainGap after-range. -/
def FlexGapAccumulator.HandleCrossGapRangesForCurrentItem
    (acc : FlexGapAccumulator) (flex_line_index cross_gap_index : Nat) :
    FlexGapAccumulator :=
  if acc.main_gaps.isEmpty then acc
  else
    let acc1 := if flex_line_index < acc.main_gaps.length then
        { acc with main_gaps :=
            (acc.main_gaps.set flex_line_index
              ((acc.main_gaps.getD flex_line_index
                ⟨0, [], []⟩).IncrementRangeOfCrossGapsBefore
                cross_gap_index)) }
      else acc
    if 0 < flex_line_index then
      { acc1 with main_gaps :=
          (acc1.main_gaps.set (flex_line_index - 1)
            ((acc1.main_gaps.getD (flex_line_index - 1)
              ⟨0, [], []⟩).IncrementRangeOfCrossGapsAfter cross_gap_index)) }
    else acc1

/-- PopulateCrossGapForCurrentItem from flex_gap_accumulator.cc (lines
184-232): compute the cross intersection offset and edge state by line
position, push the CrossGap, and update the MainGap range bookkeeping. -/
def FlexGapAccumulator.PopulateCrossGapForCurrentItem
    (acc : FlexGapAccumulator) (flex_line : FlexLine) (flex_line_index : Nat)
    (is_first_line is_last_line single_line : Bool)
    (main_intersection_offset cross_start : Int) : FlexGapAccumulator :=
  let state_pair :=
    if single_line then (cross_start, EdgeIntersectionState.kBoth)
    else if is_first_line then (cross_start, EdgeIntersectionState.kStart)
    else if is_last_line then
      (cross_start - acc.gap_between_lines / 2, EdgeIntersectionState.kEnd)
    else (flex_line.cross_axis_offset - acc.gap_between_lines / 2,
      EdgeIntersectionState.kNone)
  let logical_offset : LogicalOffset :=
    ⟨if acc.is_column then state_pair.1 else main_intersection_offset,
     if acc.is_column then main_intersection_offset else state_pair.1⟩
  let acc1 := { acc with cross_gaps :=
    (acc.cross_gaps ++ [(⟨logical_offset, state_pair.2⟩ : CrossGap)]) }
  acc1.HandleCrossGapRangesForCurrentItem flex_line_index
    (acc1.cross_gaps.length - 1)

/-- BuildGapsForCurrentItem from flex_gap_accumulator.cc (lines 74-156). -/
def FlexGapAccumulator.BuildGapsForCurrentItem (acc : FlexGapAccumulator)
    (flex_lines : List FlexLine) (flex_line_index item_index_in_line : Nat)
    (item_offset : LogicalOffset) (is_first_line is_last_line : Bool)
    (line_cross_start line_cross_end : Int) : FlexGapAccumulator :=
  let flex_line := flex_lines.getD flex_line_index ⟨[], 0⟩
  let acc1 := if is_first_line = true ∧ item_index_in_line = 0 then
      { acc with
        content_cross_start := line_cross_start,
        content_main_start :=
          (min (if acc.is_column then acc.bsp_block_start
                else acc.bsp_inline_start)
            (if acc.is_column then item_offset.block_offset
             else item_offset.inline_offset)) }
    else acc
  let acc2 := if is_last_line = true ∧ item_index_in_line = 0 then
      { acc1 with content_cross_end := line_cross_end }
    else acc1
  if item_index_in_line = 0 then
    if ¬(is_first_line = true ∧ is_last_line = true) ∧ ¬is_last_line = true then
      let acc3 := acc2.PopulateMainGapForFirstItem line_cross_end
      if flex_line.item_indices.length = 1 then
        { acc3 with content_main_end :=
            (if acc3.is_column then
              acc3.container_block_size - acc3.bsp_block_end
             else acc3.container_inline_size - acc3.bsp_inline_end) }
      else acc3
    else acc2
  else
    let main_offset := if acc2.is_column then item_offset.block_offset
      else item_offset.inline_offset
    let main_intersection_offset := main_offset - acc2.gap_between_items / 2
    let acc3 := acc2.PopulateCrossGapForCurrentItem flex_line flex_line_index
      is_first_line is_last_line (is_first_line && is_last_line)
      main_intersection_offset line_cross_start
    if item_index_in_line = flex_line.item_indices.length - 1 then
      { acc3 with content_main_end :=
          (max
            (if acc3.is_column then
              (acc3.cross_gaps.getLastD ⟨⟨0, 0⟩,
                EdgeIntersectionState.kNone⟩).GetGapOffset.block_offset
             else (acc3.cross_gaps.getLastD ⟨⟨0, 0⟩,
                EdgeIntersectionState.kNone⟩).GetGapOffset.inline_offset)
            (if acc3.is_column then
              acc3.container_block_size - acc3.bsp_block_end
             else acc3.container_inline_size - acc3.bsp_inline_end)) }
    else acc3

/-- C7: FlexGapAccumulator::BuildGapGeometry returns null exactly when
neither axis is valid, an axis being valid iff it has both a strictly
positive gap size and a nonempty gap list; in particular zero gap sizes on
both axes always yield null, and a valid axis yields a non-null result. -/
theorem buildGapGeometry_null_iff (acc : FlexGapAccumulator) :
    (acc.BuildGapGeometry = none ↔
      ¬((acc.main_gaps ≠ [] ∧ 0 < acc.gap_between_lines) ∨
        (acc.cross_gaps ≠ [] ∧ 0 < acc.gap_between_items))) ∧
    (acc.gap_between_items = 0 → acc.gap_between_lines = 0 →
      acc.BuildGapGeometry = none) ∧
    ((acc.main_gaps ≠ [] ∧ 0 < acc.gap_between_lines) ∨
      (acc.cross_gaps ≠ [] ∧ 0 < acc.gap_between_items) →
      acc.BuildGapGeometry ≠ none) := by
  have hcond : (!(!acc.main_gaps.isEmpty && decide (0 < acc.gap_between_lines))
      && !(!acc.cross_gaps.isEmpty && decide (0 < acc.gap_between_items)))
      = true ↔
      ¬((acc.main_gaps ≠ [] ∧ 0 < acc.gap_between_lines) ∨
        (acc.cross_gaps ≠ [] ∧ 0 < acc.gap_between_items)) := by
    simp [List.isEmpty_iff, not_or]
    tauto
  have hiff : acc.BuildGapGeometry = none ↔
      ¬((acc.main_gaps ≠ [] ∧ 0 < acc.gap_between_lines) ∨
        (acc.cross_gaps ≠ [] ∧ 0 < acc.gap_between_items)) := by
    constructor
    · intro h
      by_cases hc : (!(!acc.main_gaps.isEmpty &&
          decide (0 < acc.gap_between_lines)) &&
          !(!acc.cross_gaps.isEmpty &&
            decide (0 < acc.gap_between_items))) = true
      · exact hcond.mp hc
      · exfalso
        simp only [FlexGapAccumulator.BuildGapGeometry] at h
        rw [if_neg hc] at h
        exact Option.some_ne_none _ h
    · intro hno
      simp only [FlexGapAccumulator.BuildGapGeometry]
      rw [if_pos (hcond.mpr hno)]
  refine ⟨hiff, ?_, ?_⟩
  · intro h0 hl0
    apply hiff.mpr
    rintro (⟨_, hlt⟩ | ⟨_, hlt⟩) <;> omega
  · intro hv hn
    exact (hiff.mp hn) hv

/-- C7 witness: a flex accumulator with a recorded cross gap but both gap
sizes zero yields a null geometry. -/
theorem buildGapGeometry_null_iff_witness :
    (FlexGapAccumulator.mk 0 0 false 0 0 0 0 0 0 []
      [⟨⟨3, 4⟩, EdgeIntersectionState.kBoth⟩] 0 0 0 0).gap_between_items = 0 ∧
    (FlexGapAccumulator.mk 0 0 false 0 0 0 0 0 0 []
      [⟨⟨3, 4⟩, EdgeIntersectionState.kBoth⟩] 0 0 0 0).gap_between_lines = 0 ∧
    (FlexGapAccumulator.mk 0 0 false 0 0 0 0 0 0 []
      [⟨⟨3, 4⟩, EdgeIntersectionState.kBoth⟩] 0 0 0 0).BuildGapGeometry =
      none :=
  ⟨rfl, rfl,
   (buildGapGeometry_null_iff (FlexGapAccumulator.mk 0 0 false 0 0 0 0 0 0 []
     [⟨⟨3, 4⟩, EdgeIntersectionState.kBoth⟩] 0 0 0 0)).2.1 rfl rfl⟩

theorem handleCrossGapRanges_cross_gaps (acc : FlexGapAccumulator)
    (i j : Nat) :
    (acc.HandleCrossGapRangesForCurrentItem i j).cross_gaps =
      acc.cross_gaps := by
  simp only [FlexGapAccumulator.HandleCrossGapRangesForCurrentItem]
  split_ifs <;> rfl

theorem crossOffset_mk (is_column : Bool) (c m : Int)
    (st : EdgeIntersectionState) :
    (CrossGap.mk ⟨(if is_column then c else m), (if is_column then m else c)⟩
      st).CrossOffset is_column = c := by
  cases is_column <;> simp [CrossGap.CrossOffset]

/-- C8: every non-first item processed by BuildGapsForCurrentItem emits
exactly one CrossGap, whose cross-axis offset and edge intersection state
depend on the item's line: single line → touches both content edges with
offset the line's cross start; first of several lines → touches the start
edge at the line's cross start; last line → offset moved back by half the
inter-line gap; middle line → the midpoint between this line's cross start
and the previous line's cross end. -/
theorem buildGaps_nonfirst_emits_one_cross_gap (acc : FlexGapAccumulator)
    (flex_lines : List FlexLine) (flex_line_index item_index_in_line : Nat)
    (item_offset : LogicalOffset) (is_first_line is_last_line : Bool)
    (line_cross_start line_cross_end : Int)
    (hnonfirst : item_index_in_line ≠ 0) :
    ∃ g : CrossGap,
      (acc.BuildGapsForCurrentItem flex_lines flex_line_index
        item_index_in_line item_offset is_first_line is_last_line
        line_cross_start line_cross_end).cross_gaps =
        acc.cross_gaps ++ [g] ∧
      (is_first_line = true → is_last_line = true →
        g.edge_state = EdgeIntersectionState.kBoth ∧
        g.CrossOffset acc.is_column = line_cross_start) ∧
      (is_first_line = true → is_last_line = false →
        g.edge_state = EdgeIntersectionState.kStart ∧
        g.CrossOffset acc.is_column = line_cross_start) ∧
      (is_first_line = false → is_last_line = true →
        g.edge_state = EdgeIntersectionState.kEnd ∧
        g.CrossOffset acc.is_column =
          line_cross_start - acc.gap_between_lines / 2) ∧
      (is_first_line = false → is_last_line = false →
        g.edge_state = EdgeIntersectionState.kNone ∧
        ∀ prev_line_cross_end : Int,
          (flex_lines.getD flex_line_index ⟨[], 0⟩).cross_axis_offset =
            line_cross_start →
          prev_line_cross_end = line_cross_start - acc.gap_between_lines →
          2 ∣ acc.gap_between_lines →
          g.CrossOffset acc.is_column =
            (line_cross_start + prev_line_cross_end) / 2) := by
  have h0 : ¬(is_first_line = true ∧ item_index_in_line = 0) :=
    fun h => hnonfirst h.2
  have h0' : ¬(is_last_line = true ∧ item_index_in_line = 0) :=
    fun h => hnonfirst h.2
  have hmain : (acc.BuildGapsForCurrentItem flex_lines flex_line_index
      item_index_in_line item_offset is_first_line is_last_line
      line_cross_start line_cross_end).cross_gaps =
      (acc.PopulateCrossGapForCurrentItem
        (flex_lines.getD flex_line_index ⟨[], 0⟩) flex_line_index
        is_first_line is_last_line (is_first_line && is_last_line)
        ((if acc.is_column then item_offset.block_offset
          else item_offset.inline_offset) - acc.gap_between_items / 2)
        line_cross_start).cross_gaps := by
    simp only [FlexGapAccumulator.BuildGapsForCurrentItem, if_neg h0,
      if_neg h0', if_neg hnonfirst]
    by_cases hlast : item_index_in_line =
        (flex_lines.getD flex_line_index ⟨[], 0⟩).item_indices.length - 1
    · rw [if_pos hlast]
    · rw [if_neg hlast]
  cases is_first_line <;> cases is_last_line
  · refine ⟨⟨⟨(if acc.is_column then
        (flex_lines.getD flex_line_index ⟨[], 0⟩).cross_axis_offset -
          acc.gap_between_lines / 2
        else ((if acc.is_column then item_offset.block_offset
          else item_offset.inline_offset) - acc.gap_between_items / 2)),
      (if acc.is_column then
        ((if acc.is_column then item_offset.block_offset
          else item_offset.inline_offset) - acc.gap_between_items / 2)
        else (flex_lines.getD flex_line_index ⟨[], 0⟩).cross_axis_offset -
          acc.gap_between_lines / 2)⟩, EdgeIntersectionState.kNone⟩,
      ?_, fun h _ => absurd h (by decide), fun h _ => absurd h (by decide),
      fun _ h => absurd h (by decide), fun _ _ => ⟨rfl, ?_⟩⟩
    · rw [hmain]
      simp only [FlexGapAccumulator.PopulateCrossGapForCurrentItem,
        handleCrossGapRanges_cross_gaps]
      simp
    · intro prev h1 h2 h3
      rw [crossOffset_mk, h1, h2]
      obtain ⟨k, hk⟩ := h3
      have h2k : acc.gap_between_lines / 2 = k := by
        rw [hk]
        exact Int.mul_ediv_cancel_left k (by norm_num)
      have hsum : line_cross_start + (line_cross_start -
          acc.gap_between_lines) = 2 * (line_cross_start - k) := by
        rw [hk]
        ring
      rw [h2k, hsum, Int.mul_ediv_cancel_left _ (by norm_num)]
  · refine ⟨⟨⟨(if acc.is_column then
        line_cross_start - acc.gap_between_lines / 2
        else ((if acc.is_column then item_offset.block_offset
          else item_offset.inline_offset) - acc.gap_between_items / 2)),
      (if acc.is_column then
        ((if acc.is_column then item_offset.block_offset
          else item_offset.inline_offset) - acc.gap_between_items / 2)
        else line_cross_start - acc.gap_between_lines / 2)⟩,
      EdgeIntersectionState.kEnd⟩,
      ?_, fun h _ => absurd h (by decide), fun h _ => absurd h (by decide),
      fun _ _ => ⟨rfl, crossOffset_mk _ _ _ _⟩,
      fun _ h => absurd h (by decide)⟩
    rw [hmain]
    simp only [FlexGapAccumulator.PopulateCrossGapForCurrentItem,
      handleCrossGapRanges_cross_gaps]
    simp
  · refine ⟨⟨⟨(if acc.is_column then line_cross_start
        else ((if acc.is_column then item_offset.block_offset
          else item_offset.inline_offset) - acc.gap_between_items / 2)),
      (if acc.is_column then
        ((if acc.is_column then item_offset.block_offset
          else item_offset.inline_offset) - acc.gap_between_items / 2)
        else line_cross_start)⟩, EdgeIntersectionState.kStart⟩,
      ?_, fun _ h => absurd h (by decide),
      fun _ _ => ⟨rfl, crossOffset_mk _ _ _ _⟩,
      fun h _ => absurd h (by decide), fun h _ => absurd h (by decide)⟩
    rw [hmain]
    simp only [FlexGapAccumulator.PopulateCrossGapForCurrentItem,
      handleCrossGapRanges_cross_gaps]
    simp
  · refine ⟨⟨⟨(if acc.is_column then line_cross_start
        else ((if acc.is_column then item_offset.block_offset
          else item_offset.inline_offset) - acc.gap_between_items / 2)),
      (if acc.is_column then
        ((if acc.is_column then item_offset.block_offset
          else item_offset.inline_offset) - acc.gap_between_items / 2)
        else line_cross_start)⟩, EdgeIntersectionState.kBoth⟩,
      ?_, fun _ _ => ⟨rfl, crossOffset_mk _ _ _ _⟩,
      fun _ h => absurd h (by decide), fun h _ => absurd h (by decide),
      fun h _ => absurd h (by decide)⟩
    rw [hmain]
    simp only [FlexGapAccumulator.PopulateCrossGapForCurrentItem,
      handleCrossGapRanges_cross_gaps]
    simp

/-- Concrete flex accumulator for the C8 witness: row container,
gap_between_items 10, no inter-line gap, no gaps recorded yet. -/
def exampleFlexAccumulator : FlexGapAccumulator :=
  FlexGapAccumulator.mk 10 0 false 0 0 0 0 100 0 [] [] 0 0 0 0

/-- C8 witness: the second item of a single flex line emits exactly one
CrossGap touching both content edges at the line's cross start. -/
theorem buildGaps_nonfirst_emits_one_cross_gap_witness :
    (1 : Nat) ≠ 0 ∧
    (∃ g : CrossGap,
      (exampleFlexAccumulator.BuildGapsForCurrentItem [⟨[0, 1], 0⟩] 0 1
        ⟨50, 0⟩ true true 7 20).cross_gaps =
        exampleFlexAccumulator.cross_gaps ++ [g] ∧
      (true = true → true = true →
        g.edge_state = EdgeIntersectionState.kBoth ∧
        g.CrossOffset exampleFlexAccumulator.is_column = 7) ∧
      (true = true → true = false →
        g.edge_state = EdgeIntersectionState.kStart ∧
        g.CrossOffset exampleFlexAccumulator.is_column = 7) ∧
      (true = false → true = true →
        g.edge_state = EdgeIntersectionState.kEnd ∧
        g.CrossOffset exampleFlexAccumulator.is_column =
          7 - exampleFlexAccumulator.gap_between_lines / 2) ∧
      (true = false → true = false →
        g.edge_state = EdgeIntersectionState.kNone ∧
        ∀ prev_line_cross_end : Int,
          (([⟨[0, 1], 0⟩] : List FlexLine).getD 0
            ⟨[], 0⟩).cross_axis_offset = 7 →
          prev_line_cross_end =
            7 - exampleFlexAccumulator.gap_between_lines →
          2 ∣ exampleFlexAccumulator.gap_between_lines →
          g.CrossOffset exampleFlexAccumulator.is_column =
            (7 + prev_line_cross_end) / 2)) :=
  ⟨by decide,
   buildGaps_nonfirst_emits_one_cross_gap exampleFlexAccumulator
     [⟨[0, 1], 0⟩] 0 1 ⟨50, 0⟩ true true 7 20 (by decide)⟩

/-- Blocked state of one intersection, as the source's `BlockedStatus`
flag pair. -/
structure BlockedStatus where
  blocked_before : Bool
  blocked_after : Bool
deriving DecidableEq, Repr

/-- Flags queried through `BlockedStatus::HasBlockedStatus`. -/
inductive BlockedFlag
  | kBlockedBefore
  | kBlockedAfter
deriving DecidableEq, Repr

/-- HasBlockedStatus accessor. -/
def BlockedStatus.HasBlockedStatus (b : BlockedStatus) : BlockedFlag → Bool
  | BlockedFlag.kBlockedBefore => b.blocked_before
  | BlockedFlag.kBlockedAfter => b.blocked_after

/-- Rule break mode, as the source's `RuleBreak` enum. -/
inductive RuleBreak
  | kNone
  | kSpanningItem
  | kIntersection
deriving DecidableEq, Repr

/-- ShouldMoveIntersectionEndForward from gap_decorations_painter.cc (lines
24-84).  The gap geometry's `GetIntersectionBlockedStatus` is abstracted as
the oracle `blocked` (direction, gap index, intersection index), and its
container type as `container_type`. -/
def ShouldMoveIntersectionEndForward
    (blocked : GridTrackSizingDirection → Nat → Nat → BlockedStatus)
    (container_type : ContainerType)
    (track_direction : GridTrackSizingDirection)
    (gap_index end_index : Nat) (rule_break : RuleBreak) : Bool :=
  let blocked_status := blocked track_direction gap_index end_index
  match rule_break with
  | RuleBreak.kSpanningItem =>
    !(blocked_status.HasBlockedStatus BlockedFlag.kBlockedAfter)
  | _ =>
    if container_type = ContainerType.kFlex then false
    else if blocked_status.HasBlockedStatus BlockedFlag.kBlockedAfter then
      false
    else
      let cross_direction :=
        if track_direction = GridTrackSizingDirection.kForColumns then
          GridTrackSizingDirection.kForRows
        else GridTrackSizingDirection.kForColumns
      if ¬container_type = ContainerType.kGrid then false
      else
        let cross_gaps_blocked_status :=
          blocked cross_direction (end_index - 1) (gap_index + 1)
        cross_gaps_blocked_status.HasBlockedStatus BlockedFlag.kBlockedAfter &&
          cross_gaps_blocked_status.HasBlockedStatus BlockedFlag.kBlockedBefore

/-- While-loop helper for the index advances in
AdjustIntersectionIndexPair; the fuel bounds the number of iterations (the
predicates below include the loop bound, so `intersection_count` fuel is
never exhausted before the condition fails). -/
def advanceWhile (p : Nat → Bool) : Nat → Nat → Nat
  | 0, s => s
  | fuel + 1, s => if p s then advanceWhile p fuel (s + 1) else s

/-- AdjustIntersectionIndexPair from gap_decorations_painter.cc (lines
88-129): for `kNone` cover the whole gap; otherwise advance `start` past
blocked-after intersections, then advance `end` from `start + 1` while
ShouldMoveIntersectionEndForward holds. -/
def AdjustIntersectionIndexPair
    (blocked : GridTrackSizingDirection → Nat → Nat → BlockedStatus)
    (container_type : ContainerType)
    (track_direction : GridTrackSizingDirection)
    (start0 end0 intersection_count gap_index : Nat)
    (rule_break : RuleBreak) : Nat × Nat :=
  let last_intersection_index := intersection_count - 1
  if rule_break = RuleBreak.kNone then (0, last_intersection_index)
  else
    let start := advanceWhile
      (fun s => decide (s < intersection_count) &&
        (blocked track_direction gap_index s).HasBlockedStatus
          BlockedFlag.kBlockedAfter)
      intersection_count start0
    if start = last_intersection_index then (start, end0)
    else
      let adjusted_end := advanceWhile
        (fun e => decide (e < last_intersection_index) &&
          ShouldMoveIntersectionEndForward blocked container_type
            track_direction gap_index e rule_break)
        intersection_count (start + 1)
      (start, adjusted_end)

/-- C9: for every gap index, blocked-status configuration, container type
and initial index pair, AdjustIntersectionIndexPair with RuleBreak::kNone
sets start = 0 and end = the last intersection index, a single segment
covering the whole gap regardless of any blocked intersections. -/
theorem adjustIntersectionIndexPair_kNone
    (blocked : GridTrackSizingDirection → Nat → Nat → BlockedStatus)
    (container_type : ContainerType)
    (track_direction : GridTrackSizingDirection)
    (start0 end0 intersection_count gap_index : Nat) :
    AdjustIntersectionIndexPair blocked container_type track_direction start0
      end0 intersection_count gap_index RuleBreak.kNone =
      (0, intersection_count - 1) := by
  simp [AdjustIntersectionIndexPair]
